import Mathlib

/-!
# Verification of the reactive-html core engine

Shallow embedding of the reactive core of the `reactive-html` repository:

* `Signal` (src/unnamed/part_003) — observable cell with value, subscriber set.
* `Effect` / `EffectTracker` (src/unnamed/part_004) — tracked computations.
* `BatchScheduler` (src/src/lib/batch-effect.js) — pending set, dedup, flush.
* `ComputedSignal` (src/unnamed/part_006) — cached derivation.
* `reactive` / `reactiveArray` (src/unnamed/part_002) — reactive wrappers.
* `LoopBinding` (src/src/lib/loop-binding.js) and `ExpressionEvaluator`
  (src/unnamed/part_005) — keyed list reconciler and expression evaluation.

JS machine state is modelled by explicit state records; JS closures that are
used as subscriber callbacks are modelled by fresh numeric tokens (closure
identity); object identity is modelled by numeric ids.  Ghost fields used only
to state theorems (`runCount`, `readLog`, notification logs) are marked as such
and never influence control flow.
-/

namespace ReactiveCore

/-- Effect bodies.  A body is a tree of signal reads (the continuation may
depend on the value read — this is what makes dependencies *conditional*)
and signal writes.  `done` ends the body.  This models the `fn` closure
passed to `new Effect(fn)`. -/
inductive Body where
  | done : Body
  | read : Nat → (Int → Body) → Body
  | write : Nat → Int → Body → Body

/-- A body that never writes a signal (it only reads). -/
def Body.ReadOnly : Body → Prop
  | .done => True
  | .read _ k => ∀ v, (k v).ReadOnly
  | .write _ _ _ => False

/-- `Signal` state (src/unnamed/part_003): `_value` and `_subscribers`.
A subscriber entry `(t, e)` is the callback closure created in
`Effect.track` for effect `e`; the token `t` models the closure's JS
identity (`subscribers` is a `Set` of closures, iterated in insertion
order). -/
structure SignalSt where
  val : Int
  subs : List (Nat × Nat)
  deriving Repr, DecidableEq

/-- `Effect` state (src/unnamed/part_004): `fn`, `dependencies`,
`cleanups`, `active`, `scheduled`.  `cleanups` entries `(s, t)` model the
unsubscribe closures (delete token `t` from signal `s`).  `runCount` and
`readLog` are ghost instrumentation: `runCount` is incremented exactly when
a run executes the body, `readLog` records the signals read by the most
recent run. -/
structure EffectSt where
  body : Body
  dependencies : List Nat
  cleanups : List (Nat × Nat)
  active : Bool
  scheduled : Bool
  runCount : Nat
  readLog : List Nat

/-- Whole-system state: all signals and effects (addressed by numeric id),
the `EffectTracker` globals (`current`, `stack`), the `BatchScheduler`
globals (`pendingEffects`, `isScheduled`, `isFlushing`), and a fresh-token
counter for subscriber-closure identities. -/
structure Sys where
  signals : Nat → SignalSt
  effects : Nat → EffectSt
  current : Option Nat
  trackStack : List (Option Nat)
  pendingEffects : List Nat
  isScheduled : Bool
  isFlushing : Bool
  nextSub : Nat

/-- Point update of one signal. -/
def updSig (σ : Sys) (s : Nat) (f : SignalSt → SignalSt) : Sys :=
  { σ with signals := fun i => if i = s then f (σ.signals i) else σ.signals i }

/-- Point update of one effect. -/
def updEff (σ : Sys) (e : Nat) (f : EffectSt → EffectSt) : Sys :=
  { σ with effects := fun i => if i = e then f (σ.effects i) else σ.effects i }

/-- `BatchScheduler.schedule` (src/src/lib/batch-effect.js, lines 25-34):
add to the pending set (a JS `Set`: no duplicate entries, insertion order)
and, if no flush is scheduled or in progress, mark one scheduled (the
`requestAnimationFrame(() => this.flush())` callback is modelled by the
`isScheduled` flag; the flush itself is a separate step). -/
def BatchScheduler.schedule (σ : Sys) (eid : Nat) : Sys :=
  let σ' := if eid ∈ σ.pendingEffects then σ
            else { σ with pendingEffects := σ.pendingEffects ++ [eid] }
  if ¬ σ'.isScheduled ∧ ¬ σ'.isFlushing then { σ' with isScheduled := true }
  else σ'

/-- The subscriber callback registered by `Effect.track`
(src/unnamed/part_004, lines 22-28): if the effect is active and not yet
scheduled, set `scheduled` and hand it to the batch scheduler. -/
def Effect.onNotify (σ : Sys) (eid : Nat) : Sys :=
  let e := σ.effects eid
  if e.active ∧ ¬ e.scheduled then
    BatchScheduler.schedule (updEff σ eid fun e => { e with scheduled := true }) eid
  else σ

/-- `Effect.track(signal)` (src/unnamed/part_004, lines 18-32): if the
signal is not yet a dependency, add it, subscribe the notification
callback (fresh closure token appended to the signal's subscriber set) and
push the unsubscribe closure onto `cleanups`. -/
def Effect.track (σ : Sys) (eid s : Nat) : Sys :=
  if s ∈ (σ.effects eid).dependencies then σ
  else
    let t := σ.nextSub
    let σ₁ := updEff σ eid fun e =>
      { e with dependencies := e.dependencies ++ [s],
               cleanups := e.cleanups ++ [(s, t)] }
    let σ₂ := updSig σ₁ s fun g => { g with subs := g.subs ++ [(t, eid)] }
    { σ₂ with nextSub := t + 1 }

/-- `Signal` `get value` (src/unnamed/part_003, lines 15-20): if a
computation is currently tracking, register this signal with it, then
return the stored value.  The ghost `readLog` additionally records the
read. -/
def Signal.readValue (σ : Sys) (s : Nat) : Sys × Int :=
  match σ.current with
  | some eid =>
      let σ₁ := Effect.track σ eid s
      let σ₂ := updEff σ₁ eid fun e => { e with readLog := e.readLog ++ [s] }
      (σ₂, (σ₂.signals s).val)
  | none => (σ, (σ.signals s).val)

/-- `_notify` (src/unnamed/part_003, lines 48-57): invoke every subscriber
in a snapshot of the subscriber set.  In this model every subscriber is an
`Effect.track` callback (the `(newValue, oldValue)` arguments are ignored
by those callbacks). -/
def Signal.notifyAll (σ : Sys) (snapshot : List (Nat × Nat)) : Sys :=
  snapshot.foldl (fun σ p => Effect.onNotify σ p.2) σ

/-- `Signal` `set value` (src/unnamed/part_003, lines 22-35): if the new
value is reference-equal to the stored one, do nothing; otherwise store it
and notify a snapshot of the subscribers. -/
def Signal.writeValue (σ : Sys) (s : Nat) (newValue : Int) : Sys :=
  if (σ.signals s).val = newValue then σ
  else
    let σ₁ := updSig σ s fun g => { g with val := newValue }
    Signal.notifyAll σ₁ ((σ₁.signals s).subs)

/-- Execution of an effect body: reads go through `Signal.readValue`
(tracking), writes through `Signal.writeValue`. -/
def Effect.execBody (σ : Sys) : Body → Sys
  | .done => σ
  | .read s k =>
      let p := Signal.readValue σ s
      Effect.execBody p.1 (k p.2)
  | .write s v rest => Effect.execBody (Signal.writeValue σ s v) rest

/-- One unsubscribe closure from `Signal.subscribe`
(src/unnamed/part_003, lines 41-46): delete the callback (token) from the
signal's subscriber set. -/
def unsubscribeOne (σ : Sys) (p : Nat × Nat) : Sys :=
  updSig σ p.1 fun g => { g with subs := g.subs.filter (fun q => q.1 ≠ p.2) }

/-- `Effect.cleanup` (src/unnamed/part_004, lines 54-57): run every stored
unsubscribe closure, then empty the list. -/
def Effect.cleanup (σ : Sys) (eid : Nat) : Sys :=
  let σ₁ := (σ.effects eid).cleanups.foldl unsubscribeOne σ
  updEff σ₁ eid fun e => { e with cleanups := [] }

/-- `EffectTracker.track` (src/unnamed/part_004, lines 74-85): push the
previous current computation, set the new one, run the body, restore
(exception-safety is irrelevant here: modelled bodies do not throw). -/
def EffectTracker.track (σ : Sys) (eid : Nat) (b : Body) : Sys :=
  let prev := σ.current
  let σ₁ := { σ with trackStack := σ.trackStack ++ [prev], current := some eid }
  let σ₂ := Effect.execBody σ₁ b
  { σ₂ with current := prev, trackStack := σ₂.trackStack.dropLast }

/-- `Effect.run` (src/unnamed/part_004, lines 34-52): if inactive, return;
clear `scheduled`; run cleanups; clear the dependency set; execute the
body under the tracker.  (`GlobalErrorHandler.wrap` is the identity here
because modelled bodies do not throw.)  Ghost: reset `readLog`, increment
`runCount`. -/
def Effect.run (σ : Sys) (eid : Nat) : Sys :=
  if ¬ (σ.effects eid).active then σ
  else
    let σ₁ := updEff σ eid fun e =>
      { e with scheduled := false, readLog := [], runCount := e.runCount + 1 }
    let σ₂ := Effect.cleanup σ₁ eid
    let σ₃ := updEff σ₂ eid fun e => { e with dependencies := [] }
    EffectTracker.track σ₃ eid ((σ₃.effects eid).body)

/-- `Effect.stop` (src/unnamed/part_004, lines 59-63): deactivate, run
cleanups, clear the dependency set. -/
def Effect.stop (σ : Sys) (eid : Nat) : Sys :=
  let σ₁ := updEff σ eid fun e => { e with active := false }
  let σ₂ := Effect.cleanup σ₁ eid
  updEff σ₂ eid fun e => { e with dependencies := [] }

/-- The `effect.active` guard inside `BatchScheduler.flush`
(src/src/lib/batch-effect.js, lines 50-54). -/
def runIfActive (σ : Sys) (eid : Nat) : Sys :=
  if (σ.effects eid).active then Effect.run σ eid else σ

/-- `BatchScheduler.flush` (src/src/lib/batch-effect.js, lines 39-63):
reentrancy-guarded; snapshot the pending set, clear it, run every
still-active effect in order; afterwards, if new effects were scheduled,
arrange another flush. -/
def BatchScheduler.flush (σ : Sys) : Sys :=
  if σ.isFlushing then σ
  else
    let σ₁ := { σ with isFlushing := true, isScheduled := false }
    let snapshot := σ₁.pendingEffects
    let σ₂ := { σ₁ with pendingEffects := [] }
    let σ₃ := snapshot.foldl runIfActive σ₂
    let σ₄ := { σ₃ with isFlushing := false }
    if σ₄.pendingEffects.length > 0 ∧ ¬ σ₄.isScheduled then
      { σ₄ with isScheduled := true }
    else σ₄

/-- Sequence of value writes (distinct client writes between flushes). -/
def applyWrites (σ : Sys) (ws : List (Nat × Int)) : Sys :=
  ws.foldl (fun σ p => Signal.writeValue σ p.1 p.2) σ

/-- Externally-triggerable operations of the core engine, for stating
temporal properties over arbitrary continuations. -/
inductive Op where
  | writeOp : Nat → Int → Op
  | flushOp : Op
  | flushSyncOp : Op
  | scheduleOp : Nat → Op
  | runOp : Nat → Op
  | stopOp : Nat → Op

/-- Interpret one operation.  `flushSync` (src/src/lib/batch-effect.js,
lines 68-70) simply calls `flush`. -/
def applyOp (σ : Sys) : Op → Sys
  | .writeOp s v => Signal.writeValue σ s v
  | .flushOp => BatchScheduler.flush σ
  | .flushSyncOp => BatchScheduler.flush σ
  | .scheduleOp e => BatchScheduler.schedule σ e
  | .runOp e => Effect.run σ e
  | .stopOp e => Effect.stop σ e

/-- Interpret a sequence of operations. -/
def applyOps (σ : Sys) (ops : List Op) : Sys :=
  ops.foldl applyOp σ

/-- Well-formedness used by the claims: every subscriber entry of effect
`eid` is covered by one of its cleanup closures (no un-removable stale
edge).  This holds for every effect the engine itself creates (`track` is
the only place subscriptions are made, and it records the unsubscriber). -/
def CleanupCovers (σ : Sys) (eid : Nat) : Prop :=
  ∀ s t, (t, eid) ∈ (σ.signals s).subs → (s, t) ∈ (σ.effects eid).cleanups

/-- Frame of a tracked, read-only body execution: everything except the
tracked effect's dependency bookkeeping (and the token counter) is
preserved, and subscriber sets only grow, only with entries for the
tracked effect. -/
structure ROFrame (eid : Nat) (σ σ' : Sys) : Prop where
  cur : σ'.current = σ.current
  stk : σ'.trackStack = σ.trackStack
  pend : σ'.pendingEffects = σ.pendingEffects
  isSch : σ'.isScheduled = σ.isScheduled
  isFl : σ'.isFlushing = σ.isFlushing
  vals : ∀ x, (σ'.signals x).val = (σ.signals x).val
  effOther : ∀ e, e ≠ eid → σ'.effects e = σ.effects e
  act : (σ'.effects eid).active = (σ.effects eid).active
  sch : (σ'.effects eid).scheduled = (σ.effects eid).scheduled
  rc : (σ'.effects eid).runCount = (σ.effects eid).runCount
  bdy : (σ'.effects eid).body = (σ.effects eid).body
  subsMono : ∀ x q, q ∈ (σ.signals x).subs → q ∈ (σ'.signals x).subs
  subsNew : ∀ x q, q ∈ (σ'.signals x).subs → q ∈ (σ.signals x).subs ∨ q.2 = eid

/-- Invariant A: effect `eid` has a live subscription on exactly the
signals its most recent run read. -/
def InvA (σ : Sys) (eid : Nat) : Prop :=
  ∀ x, (∃ t, (t, eid) ∈ (σ.signals x).subs) ↔ x ∈ (σ.effects eid).readLog

/-- Invariant B: the dependency set is exactly the set of signals read. -/
def InvB (σ : Sys) (eid : Nat) : Prop :=
  ∀ x, x ∈ (σ.effects eid).dependencies ↔ x ∈ (σ.effects eid).readLog

/-- The stable situation between the first effective write and the next
flush: the computation sits (exactly once) in the pending set with its
`scheduled` flag up, still active, every other effect inactive, and no
flush in progress. -/
def PState (σ : Sys) (eid : Nat) (B : Body) (r : Nat) : Prop :=
  σ.pendingEffects = [eid] ∧ (σ.effects eid).scheduled = true ∧
  (σ.effects eid).active = true ∧
  (∀ e, e ≠ eid → (σ.effects e).active = false) ∧
  σ.isFlushing = false ∧ (σ.effects eid).body = B ∧
  (σ.effects eid).runCount = r

/-- The permanent situation after `Effect.stop`: inactive, no edges, no
cleanups or dependencies left, and no tracking in progress. -/
def StoppedInv (σ : Sys) (eid : Nat) : Prop :=
  (σ.effects eid).active = false ∧ (σ.effects eid).cleanups = [] ∧
  (σ.effects eid).dependencies = [] ∧
  (∀ s t, (t, eid) ∉ (σ.signals s).subs) ∧ σ.current = none

/-- An effect slot that was never brought to life. -/
def inertEffect : EffectSt :=
  { body := .done, dependencies := [], cleanups := [], active := false,
    scheduled := false, runCount := 0, readLog := [] }

/-- A fresh system whose only live computation is effect `0` with body
`b`, not yet run; all signals start at `0` with no subscribers. -/
def mkSys (b : Body) : Sys :=
  { signals := fun _ => { val := 0, subs := [] },
    effects := fun e =>
      if e = 0 then
        { body := b, dependencies := [], cleanups := [], active := true,
          scheduled := false, runCount := 0, readLog := [] }
      else inertEffect,
    current := none, trackStack := [], pendingEffects := [],
    isScheduled := false, isFlushing := false, nextSub := 0 }

/-- Body that reads cell 0 and, only when its value is zero, also reads
cell 1 — a conditionally-read dependency. -/
def condBody : Body :=
  .read 0 (fun v => if v = 0 then .done else .read 1 (fun _ => .done))

/-- Body that reads cells 0 and 1 unconditionally (a two-cell sum). -/
def sumBody : Body := .read 0 (fun _ => .read 1 (fun _ => .done))

/-- A system in which effect `0` has already run once: it depends on
cell 0 (subscription token 0) and sits in the scheduler's pending set. -/
def stopSys : Sys :=
  { signals := fun s =>
      if s = 0 then { val := 0, subs := [(0, 0)] } else { val := 0, subs := [] },
    effects := fun e =>
      if e = 0 then
        { body := .read 0 (fun _ => .done), dependencies := [0],
          cleanups := [(0, 0)], active := true, scheduled := true,
          runCount := 1, readLog := [0] }
      else inertEffect,
    current := none, trackStack := [], pendingEffects := [0],
    isScheduled := true, isFlushing := false, nextSub := 1 }

end ReactiveCore

namespace ComputedModel

/-!
## `ComputedSignal` (src/unnamed/part_006)

Standalone model of one cached derivation over plain leaf signals.  The
computed's internal `Effect` is represented by its dependency set together
with `active`/`scheduled` flags; subscription edges coincide with the
dependency set (`Effect.track` creates both together and `cleanup` clears
both together, and nothing else in this scenario touches them).  The
batch-scheduler pending set is the single flag `pending`.  Reads of
`.value` happen outside any other tracked computation
(`EffectTracker.current === null`), which is the situation the claims
exercise.
-/

/-- Getter bodies: a decision tree of signal reads ending in a returned
value (the continuation may depend on the value read). -/
inductive GBody where
  | ret : Int → GBody
  | read : Nat → (Int → GBody) → GBody

/-- Evaluate a getter against an environment of leaf-signal values,
returning its result and the list of signals it read. -/
def evalGetter (env : Nat → Int) : GBody → Int × List Nat
  | .ret v => (v, [])
  | .read s k =>
      let p := evalGetter env (k (env s))
      (p.1, s :: p.2)

/-- The computed's internal `Effect`'s relevant state. -/
structure CEff where
  dependencies : List Nat
  active : Bool
  scheduled : Bool
  deriving Repr, DecidableEq

/-- State of one `ComputedSignal` plus the leaf signals it may read.
`cvalue` is `_value` (starts as JS `undefined`, hence `Option`);
`notifyLog` is a ghost log of every `(newValue, this._value)` argument
pair passed to `_notify`. -/
structure CSys where
  sig : Nat → Int
  eff : CEff
  cvalue : Option Int
  dirty : Bool
  pending : Bool
  notifyLog : List (Int × Option Int)

/-- The effect body built in `_setupEffect` (src/unnamed/part_006, lines
39-53): evaluate the getter (tracking — this is the only tracked
evaluation the class ever performs, during the `new Effect(fn)`
constructor run), update `_value` and `_notify(newValue, this._value)` if
changed, clear `dirty`.  Note the notify argument: `this._value` has
already been overwritten when `_notify` reads it. -/
def computedFn (σ : CSys) (g : GBody) : CSys :=
  let newValue := (evalGetter σ.sig g).1
  let σ₁ :=
    if σ.cvalue ≠ some newValue then
      { σ with cvalue := some newValue,
               notifyLog := σ.notifyLog ++ [(newValue, some newValue)] }
    else σ
  { σ₁ with dirty := false }

/-- `new ComputedSignal(getter)` (src/unnamed/part_006, lines 24-33):
`super(undefined)`, `dirty = true`, then `_setupEffect` constructs
`new Effect(fn)` whose constructor immediately runs `fn` under the
tracker, establishing the dependency set from the signals the getter
reads.  Only after that constructor returns is `effect.run` overridden by
`() => { this.dirty = true; }`. -/
def construct (env : Nat → Int) (g : GBody) : CSys :=
  let σ₀ : CSys :=
    { sig := env,
      eff := { dependencies := ((evalGetter env g).2).dedup,
               active := true, scheduled := false },
      cvalue := none, dirty := true, pending := false, notifyLog := [] }
  computedFn σ₀ g

/-- Write a leaf signal (src/unnamed/part_003 `set value`): no-op on an
unchanged value; otherwise store and notify.  The only subscriber is the
computed's effect callback (src/unnamed/part_004, lines 22-28), which
fires only when the effect subscribed to this signal: it checks
`active && !scheduled`, then sets `scheduled` and schedules the effect. -/
def writeSig (σ : CSys) (s : Nat) (v : Int) : CSys :=
  if σ.sig s = v then σ
  else
    let σ₁ := { σ with sig := fun i => if i = s then v else σ.sig i }
    if s ∈ σ₁.eff.dependencies ∧ σ₁.eff.active ∧ ¬ σ₁.eff.scheduled then
      { σ₁ with eff := { σ₁.eff with scheduled := true }, pending := true }
    else σ₁

/-- A scheduler flush reaching the computed's effect: `flush` calls
`effect.run()`, which `_setupEffect` has overridden to
`() => { this.dirty = true; }` (src/unnamed/part_006, lines 56-60).  The
override does *not* reset `scheduled` (only the original `Effect.run`
did), and does not touch dependencies. -/
def flushC (σ : CSys) : CSys :=
  if σ.pending then
    if σ.eff.active then { σ with pending := false, dirty := true }
    else { σ with pending := false }
  else σ

/-- `ComputedSignal._recompute` (src/unnamed/part_006, lines 90-105).
The first statement, `this.effect.run = this.effect.run.bind(this.effect)`,
re-binds the *overridden* run to itself: a no-op.  The getter is then
invoked directly — *not* under `EffectTracker.track` — so with no outer
computation active its reads register nothing and the effect's dependency
set is left untouched.  Then the cached value is updated, `_notify` fired
if it changed (again after `_value` was overwritten), and `dirty`
cleared. -/
def «_recompute» (σ : CSys) (g : GBody) : CSys :=
  let newValue := (evalGetter σ.sig g).1
  let σ₁ :=
    if σ.cvalue ≠ some newValue then
      { σ with cvalue := some newValue,
               notifyLog := σ.notifyLog ++ [(newValue, some newValue)] }
    else σ
  { σ₁ with dirty := false }

/-- `ComputedSignal` `get value` (src/unnamed/part_006, lines 66-78) read
outside any tracked computation: recompute if dirty, return the cached
value (the `EffectTracker.current` branch does not fire). -/
def getValue (σ : CSys) (g : GBody) : CSys × Option Int :=
  let σ₁ := if σ.dirty then «_recompute» σ g else σ
  (σ₁, σ₁.cvalue)

/-- A getter that reads cell 0 and, only when its value is non-zero, also
reads cell 1 (returning cell 1's value then). -/
def condGetter : GBody :=
  .read 0 (fun v => if v = 0 then .ret 0 else .read 1 (fun w => .ret w))

/-- Leaf environment: cell 1 holds 5, everything else 0. -/
def env0 : Nat → Int := fun s => if s = 1 then 5 else 0

/-- A dirty computed with empty log, for exercising `_recompute`. -/
def csys0 : CSys :=
  { sig := fun _ => 0,
    eff := { dependencies := [], active := true, scheduled := false },
    cvalue := none, dirty := true, pending := false, notifyLog := [] }

end ComputedModel

namespace WrapperModel

/-!
## `reactive` / `reactiveArray` wrapper allocation (src/unnamed/part_002)

Model of the wrapper caches and proxy allocation.  The JS heap is a list
of allocated objects (address = position); a proxy records its target.
`Array.isArray` pierces proxies, so a proxy created by `reactiveArray` is
itself an array.  The per-target signal maps are elided: they are not
observable through the operations these claims exercise. -/

/-- Kind of a heap object. -/
inductive HKind where
  | rawObj : HKind
  | rawArr : HKind
  | proxyObj : Nat → HKind
  | proxyArr : Nat → HKind
  deriving Repr, DecidableEq

/-- JS values as seen by `reactive`: primitives, `null`, or heap
references. -/
inductive JVal where
  | prim : Int → JVal
  | nullv : JVal
  | obj : Nat → JVal
  deriving Repr, DecidableEq

/-- Wrapper-cache state: heap, `ReactiveModel._reactiveMap`
(raw → wrapper) and `ReactiveModel._rawMap` (wrapper → raw), both
`WeakMap`s keyed by object address. -/
structure WState where
  heap : List HKind
  reactiveMap : List (Nat × Nat)
  rawMap : List (Nat × Nat)
  deriving Repr, DecidableEq

/-- `WeakMap.get`. -/
def wmGet (m : List (Nat × Nat)) (k : Nat) : Option Nat :=
  (m.find? (fun p => p.1 = k)).map (·.2)

/-- `WeakMap.set` (overwrites an existing key in place, else appends). -/
def wmSet (m : List (Nat × Nat)) (k v : Nat) : List (Nat × Nat) :=
  if m.any (fun p => p.1 = k) then
    m.map (fun p => if p.1 = k then (k, v) else p)
  else m ++ [(k, v)]

/-- `Array.isArray`: true for raw arrays and for proxies whose target is
an array.  `reactiveArray` is only ever handed arrays, so `proxyArr`
kinds are exactly the array proxies. -/
def isArrayAt (σ : WState) (a : Nat) : Bool :=
  match σ.heap[a]? with
  | some .rawArr => true
  | some (.proxyArr _) => true
  | _ => false

/-- `reactiveArray(arr)` (src/unnamed/part_002, lines 27-135): creates the
change/length/version signals (elided), allocates a *new* `Proxy` — with
no cache lookup — and records it in both maps. -/
def reactiveArray (σ : WState) (a : Nat) : WState × JVal :=
  let p := σ.heap.length
  ({ heap := σ.heap ++ [HKind.proxyArr a],
     reactiveMap := wmSet σ.reactiveMap a p,
     rawMap := wmSet σ.rawMap p a }, JVal.obj p)

/-- `reactive(target)` (src/unnamed/part_002, lines 137-236):
1. arrays delegate to `reactiveArray`;
2. a `_reactiveMap` hit returns the cached wrapper;
3. non-objects (`typeof target !== 'object' || target === null`) are
   returned unchanged (for primitives the two earlier checks are false:
   `Array.isArray(prim)` is false and a `WeakMap` never holds a
   primitive key);
4. otherwise allocate a fresh object proxy and record it in both maps. -/
def reactive (σ : WState) (v : JVal) : WState × JVal :=
  match v with
  | .prim n => (σ, .prim n)
  | .nullv => (σ, .nullv)
  | .obj a =>
      if isArrayAt σ a then reactiveArray σ a
      else
        match wmGet σ.reactiveMap a with
        | some p => (σ, .obj p)
        | none =>
            let p := σ.heap.length
            ({ heap := σ.heap ++ [HKind.proxyObj a],
               reactiveMap := wmSet σ.reactiveMap a p,
               rawMap := wmSet σ.rawMap p a }, JVal.obj p)

end WrapperModel

namespace ArrayModel

/-!
## `reactiveArray` traps (src/unnamed/part_002, lines 51-128)

Model of one wrapped array: the underlying array (`target`), the three
signals (`length`, `__version`, `__arrayChange`) by their stored values,
and a ghost `notifyLog` recording which signal fired `_notify` (i.e. which
`Signal` `set value` call actually changed the value).  Array elements are
`Int`; reference equality of elements is `Int` equality.  `Date.now()` is
modelled by the strictly increasing `clock`, which also models the fact
that each change event is a freshly allocated object (never
reference-equal to the previous one). -/

/-- Which signal of the wrapped array issued a notification. -/
inductive SigName where
  | lengthSig : SigName
  | versionSig : SigName
  | changeSig : SigName
  deriving Repr, DecidableEq

/-- The structured change-event value.  (`args` elided: no claim inspects
it.) -/
inductive ChangeEvent where
  | methodEvent (ctype : String) (methodName : String)
      (oldLength newLength : Nat) (timestamp : Nat) : ChangeEvent
  | updateEvent (index : Nat) (oldValue : Option Int) (newValue : Int)
      (timestamp : Nat) : ChangeEvent
  deriving Repr, DecidableEq

/-- One wrapped array's state. -/
structure ArrSys where
  target : List Int
  lengthSig : Int
  versionSig : Int
  changeSig : Option ChangeEvent
  clock : Nat
  notifyLog : List SigName
  deriving Repr, DecidableEq

/-- `lengthSignal.value = v` (src/unnamed/part_003 `set value`): no-op on
an unchanged value, else store and notify. -/
def setLengthSig (σ : ArrSys) (v : Int) : ArrSys :=
  if σ.lengthSig = v then σ
  else { σ with lengthSig := v, notifyLog := σ.notifyLog ++ [SigName.lengthSig] }

/-- `versionSignal.value = v`. -/
def setVersionSig (σ : ArrSys) (v : Int) : ArrSys :=
  if σ.versionSig = v then σ
  else { σ with versionSig := v, notifyLog := σ.notifyLog ++ [SigName.versionSig] }

/-- `changeSignal.value = ev`.  The event carries a fresh timestamp, so it
is never equal to the stored one — matching the JS fact that a freshly
allocated object is never reference-equal to the old value. -/
def setChangeSig (σ : ArrSys) (ev : ChangeEvent) : ArrSys :=
  if σ.changeSig = some ev then σ
  else { σ with changeSig := some ev, notifyLog := σ.notifyLog ++ [SigName.changeSig] }

/-- The seven intercepted mutating methods. -/
inductive MutMethod where
  | push (v : Int) : MutMethod
  | pop : MutMethod
  | shift : MutMethod
  | unshift (v : Int) : MutMethod
  | splice (start deleteCount : Int) (items : List Int) : MutMethod
  | sort : MutMethod
  | reverse : MutMethod
  deriving Repr, DecidableEq

/-- The `mutationMethods` classification table (src/unnamed/part_002,
lines 53-61). -/
def classify : MutMethod → String
  | .push _ => "add"
  | .pop => "remove"
  | .shift => "remove"
  | .unshift _ => "add"
  | .splice _ _ _ => "splice"
  | .sort => "reorder"
  | .reverse => "reorder"

/-- Method name, for the change event. -/
def methodNameOf : MutMethod → String
  | .push _ => "push"
  | .pop => "pop"
  | .shift => "shift"
  | .unshift _ => "unshift"
  | .splice _ _ _ => "splice"
  | .sort => "sort"
  | .reverse => "reverse"

/-- `Array.prototype.splice` start-index clamping. -/
def spliceStart (len : Nat) (start : Int) : Nat :=
  if start < 0 then ((len : Int) + start).toNat else min start.toNat len

/-- `Array.prototype.splice` on the underlying list. -/
def jsSplice (l : List Int) (start deleteCount : Int) (items : List Int) :
    List Int :=
  let s := spliceStart l.length start
  let d := min deleteCount.toNat (l.length - s)
  l.take s ++ items ++ l.drop (s + d)

/-- Insertion step for the sort model. -/
def insertSorted (x : Int) : List Int → List Int
  | [] => [x]
  | y :: ys => if x ≤ y then x :: y :: ys else y :: insertSorted x ys

/-- `Array.prototype.sort()` modelled as an ascending sort.  (The JS
default comparator orders by string representation; none of the claims
depend on the resulting order, only on the array being permuted in
place.) -/
def sortImpl (l : List Int) : List Int := l.foldr insertSorted []

/-- `Array.prototype[property].apply(target, args)` for the seven
intercepted methods. -/
def applyRaw (l : List Int) : MutMethod → List Int
  | .push v => l ++ [v]
  | .pop => l.dropLast
  | .shift => l.drop 1
  | .unshift v => v :: l
  | .splice s d items => jsSplice l s d items
  | .sort => sortImpl l
  | .reverse => l.reverse

/-- The `get` trap's interception of a mutating method call
(src/unnamed/part_002, lines 63-86): run the underlying method, update the
length signal, *always* increment the version signal, then emit the
structured change event. -/
def callMethod (σ : ArrSys) (m : MutMethod) : ArrSys :=
  let oldLength := σ.target.length
  let t := applyRaw σ.target m
  let σ₁ := { σ with target := t }
  let σ₂ := setLengthSig σ₁ (t.length : Int)
  let σ₃ := setVersionSig σ₂ (σ₂.versionSig + 1)
  let ev := ChangeEvent.methodEvent (classify m) (methodNameOf m)
      oldLength t.length σ₃.clock
  setChangeSig { σ₃ with clock := σ₃.clock + 1 } ev

/-- The `set` trap for a numeric property (src/unnamed/part_002, lines
107-128): read the old value, perform the raw write, update the length
signal and *unconditionally* increment the version signal; only the
structured change event is guarded by `oldValue !== value`.  (In-bounds
index writes are modelled; `List.set` is the raw `Reflect.set`.) -/
def setIndex (σ : ArrSys) (i : Nat) (v : Int) : ArrSys :=
  let oldValue : Option Int := σ.target[i]?
  let t := σ.target.set i v
  let σ₁ := { σ with target := t }
  let σ₂ := setLengthSig σ₁ (t.length : Int)
  let σ₃ := setVersionSig σ₂ (σ₂.versionSig + 1)
  if oldValue ≠ some v then
    setChangeSig { σ₃ with clock := σ₃.clock + 1 }
      (ChangeEvent.updateEvent i oldValue v σ₃.clock)
  else σ₃

/-- A freshly wrapped array (src/unnamed/part_002, lines 27-49): length
signal initialised to `arr.length`, version signal to `0`, change signal
to `null`. -/
def wrapArray (l : List Int) : ArrSys :=
  { target := l, lengthSig := (l.length : Int), versionSig := 0,
    changeSig := none, clock := 0, notifyLog := [] }

end ArrayModel

namespace LoopModel

/-!
## Keyed list reconciliation (src/src/lib/loop-binding.js) and expression
evaluation (src/unnamed/part_005)

Items carry an `id` field; keys are JS values (`Int` or `undefined`).
Host-tree nodes and instance objects are identified by numeric ids
(`element`, `iid`); "the identical object" means the same id.  The DOM
region owned by the loop is the list of element ids following the anchor
comment node, in sibling order. -/

/-- An item of the source sequence. -/
structure Item where
  id : Int
  deriving Repr, DecidableEq

/-- A JS key value: a number, or `undefined`. -/
inductive KVal where
  | intv : Int → KVal
  | undef : KVal
  deriving Repr, DecidableEq

/-- `ExpressionEvaluator.evaluate` (src/unnamed/part_005, lines 63-78):
the whole evaluation is wrapped in `try { ... } catch { warn; return
undefined }`, so a throwing expression yields `undefined` — `evaluate`
itself never throws.  The argument is the outcome of invoking the
compiled expression closure on the context. -/
def evaluateExpr (result : Except Unit KVal) : KVal :=
  match result with
  | .ok v => v
  | .error _ => KVal.undef

/-- A key expression: `none` models the default `'$index'` key
(`_extractKey`, src/src/lib/loop-binding.js lines 43-46); `some f` models
a configured `:key` expression, whose raw evaluation on the item context
may throw (`Except.error`). -/
def KeyExpr := Option (Item → Nat → Except Unit KVal)

/-- `LoopBinding._computeKey` (src/src/lib/loop-binding.js, lines
117-128): `'$index'` returns `context.$index`; otherwise the key
expression is evaluated through `ExpressionEvaluator.evaluate`.  The
surrounding `try { ... } catch { warn; return context.$index }` can never
take its catch branch, because `evaluate` catches internally and returns
`undefined` instead of throwing; the positional-index fallback is
unreachable and is therefore absent from the model. -/
def computeKey (keyExpr : KeyExpr) (item : Item) (index : Nat) : KVal :=
  match keyExpr with
  | none => KVal.intv (index : Int)
  | some f => evaluateExpr (f item index)

/-- A rendered list instance (`_createInstance`,
src/src/lib/loop-binding.js lines 242-260): identity `iid`, rendered root
element, captured item and `$index`. -/
structure Instance where
  iid : Nat
  element : Nat
  data : Item
  ctxIndex : Nat
  deriving Repr, DecidableEq

/-- `Map.get`. -/
def mapGet {α β : Type} [DecidableEq α] (m : List (α × β)) (k : α) : Option β :=
  (m.find? (fun p => p.1 = k)).map (·.2)

/-- `Map.set`: an existing key keeps its position and is overwritten
(last-wins); a new key is appended (insertion order). -/
def mapSet {α β : Type} [DecidableEq α] (m : List (α × β)) (k : α) (v : β) :
    List (α × β) :=
  if m.any (fun p => p.1 = k) then
    m.map (fun p => if p.1 = k then (k, v) else p)
  else m ++ [(k, v)]

/-- `Map.has`. -/
def mapHas {α β : Type} [DecidableEq α] (m : List (α × β)) (k : α) : Bool :=
  m.any (fun p => p.1 = k)

/-- `_buildKeyMap` (lines 98-105): key each existing instance by its
stored data and context. -/
def buildKeyMap (kf : KeyExpr) (insts : List Instance) :
    List (KVal × (Instance × Nat)) :=
  insts.enum.foldl
    (fun m p => mapSet m (computeKey kf p.2.data p.2.ctxIndex) (p.2, p.1)) []

/-- `_buildDataKeyMap` (lines 107-115): key each new item by the fresh
item context (`$index` = position). -/
def buildDataKeyMap (kf : KeyExpr) (newData : List Item) :
    List (KVal × (Item × Nat)) :=
  newData.enum.foldl
    (fun m p => mapSet m (computeKey kf p.2 p.1) (p.2, p.1)) []

/-- An entry of `toUpdate` (lines 150-159). -/
structure UpdateOp where
  key : KVal
  inst : Instance
  newData : Item
  newIndex : Nat
  oldIndex : Nat
  deriving Repr, DecidableEq

/-- An entry of `toAdd` (lines 165-174). -/
structure AddOp where
  key : KVal
  data : Item
  index : Nat
  deriving Repr, DecidableEq

/-- The operation plan (lines 144-191). -/
structure PlanOps where
  toRemove : List Instance
  toUpdate : List UpdateOp
  toAdd : List AddOp
  finalInstances : List (Option Instance)
  deriving Repr, DecidableEq

/-- `_planOperations` (lines 144-191).  The final pass rebuilds the
instance array positionally from the new sequence, reusing (and mutating
in place: same `iid`, same `element`) any old instance whose key is
present, and leaving `null` where a fresh instance must be created. -/
def planOperations (kf : KeyExpr) (oldByKey : List (KVal × (Instance × Nat)))
    (newByKey : List (KVal × (Item × Nat))) (newData : List Item) : PlanOps :=
  let toRemove := (oldByKey.filter (fun p => ¬ mapHas newByKey p.1)).map
    (fun p => p.2.1)
  let toUpdate := oldByKey.foldl
    (fun acc p =>
      match mapGet newByKey p.1 with
      | some n => acc ++ [{ key := p.1, inst := p.2.1, newData := n.1,
                            newIndex := n.2, oldIndex := p.2.2 : UpdateOp }]
      | none => acc) []
  let toAdd := (newByKey.filter (fun p => ¬ mapHas oldByKey p.1)).map
    (fun p => { key := p.1, data := p.2.1, index := p.2.2 : AddOp })
  let finalInstances := newData.enum.map (fun p =>
    let key := computeKey kf p.2 p.1
    match mapGet oldByKey key with
    | some o => some { o.1 with data := p.2, ctxIndex := p.1 }
    | none => none)
  { toRemove := toRemove, toUpdate := toUpdate, toAdd := toAdd,
    finalInstances := finalInstances }

/-- Host-tree / instance-allocation state threaded through
`_applyOperations`.  `dom` is the ordered element list after the anchor;
`removedLog` (ghost) records every `element.remove()`, `cleanupLog`
(ghost) every instance whose `cleanup()` ran, `createdCount` (ghost) every
`_createInstance` call. -/
structure RState where
  dom : List Nat
  nextElem : Nat
  nextIid : Nat
  removedLog : List Nat
  cleanupLog : List Nat
  createdCount : Nat
  deriving Repr, DecidableEq

/-- Insert `x` immediately after `prev` in the sibling list
(`previousInstance.element.parentNode.insertBefore(x, prev.nextSibling)`).
If `prev` is not attached the insertion is impossible (never reached in
the verified scenarios). -/
def insertAfterNode : List Nat → Nat → Nat → List Nat
  | [], _, _ => []
  | y :: ys, prev, x => if y = prev then y :: x :: ys else y :: insertAfterNode ys prev x

/-- `parentNode.insertBefore(x, ref)` where `ref = none` means `null`
(append at end).  `x` is detached from its current position first. -/
def insertBeforeNode (dom : List Nat) (x : Nat) (ref : Option Nat) : List Nat :=
  let d := dom.erase x
  match ref with
  | none => d ++ [x]
  | some r =>
      if r ∈ d then d.takeWhile (· ≠ r) ++ [x] ++ d.dropWhile (· ≠ r)
      else d ++ [x]

/-- `node.nextSibling` within the region. -/
def nextSiblingOf (dom : List Nat) (x : Nat) : Option Nat :=
  match dom.dropWhile (· ≠ x) with
  | _ :: y :: _ => some y
  | _ => none

/-- One step of `_reorderDOM`'s lock-step walk (lines 227-240). -/
def reorderStep (st : List Nat × Option Nat) (inst? : Option Instance) :
    List Nat × Option Nat :=
  match inst? with
  | none => st
  | some inst =>
      let dom := st.1
      let cur := st.2
      let dom' := if cur = some inst.element then dom
                  else insertBeforeNode dom inst.element cur
      (dom', nextSiblingOf dom' inst.element)

/-- `_reorderDOM` (lines 227-240): walk the final instance array and the
sibling chain in lock-step, moving any element not already in its slot. -/
def reorderDOM (dom : List Nat) (finals : List (Option Instance)) : List Nat :=
  (finals.foldl reorderStep (dom, dom.head?)).1

/-- `_applyOperations` (lines 193-225): removals first (detach the element
and run the instance cleanup), then context refreshes for updates
(`Object.assign` re-writes values already installed by the final-pass
mutation: no further observable change here), then additions (fresh
instance from the template, inserted after its left neighbour, or right
after the anchor for index 0), then the positional reorder pass. -/
def applyOperations (st : RState) (ops : PlanOps) : RState × List (Option Instance) :=
  let st₁ := ops.toRemove.foldl
    (fun st inst =>
      { st with dom := st.dom.erase inst.element,
                removedLog := st.removedLog ++ [inst.element],
                cleanupLog := st.cleanupLog ++ [inst.iid] }) st
  let p := ops.toAdd.foldl
    (fun (acc : RState × List (Option Instance)) op =>
      let st := acc.1
      let fin := acc.2
      let inst : Instance := { iid := st.nextIid, element := st.nextElem,
                               data := op.data, ctxIndex := op.index }
      let st := { st with nextElem := st.nextElem + 1, nextIid := st.nextIid + 1,
                          createdCount := st.createdCount + 1 }
      let st :=
        if op.index = 0 then { st with dom := inst.element :: st.dom }
        else
          match fin[op.index - 1]? with
          | some (some prev) =>
              { st with dom := insertAfterNode st.dom prev.element inst.element }
          | _ => st
      (st, fin.set op.index (some inst)))
    (st₁, ops.finalInstances)
  let st₂ := p.1
  ({ st₂ with dom := reorderDOM st₂.dom p.2 }, p.2)

/-- `_reconcile` (lines 90-96): build the two key maps, plan, apply, and
store the final instance list. -/
def reconcile (kf : KeyExpr) (st : RState) (insts : List Instance)
    (newData : List Item) : RState × List Instance :=
  let oldByKey := buildKeyMap kf insts
  let newByKey := buildDataKeyMap kf newData
  let ops := planOperations kf oldByKey newByKey newData
  let p := applyOperations st ops
  (p.1, p.2.filterMap id)

/-- Key expression `item.id` (never throws). -/
def keyById : KeyExpr := some fun it _ => Except.ok (KVal.intv it.id)

/-- The previously rendered sequence `[{id:1},{id:2},{id:3}]`: three
instances with ids 1,2,3 rendered to elements 101,102,103. -/
def prevInstances : List Instance :=
  [ { iid := 1, element := 101, data := { id := 1 }, ctxIndex := 0 },
    { iid := 2, element := 102, data := { id := 2 }, ctxIndex := 1 },
    { iid := 3, element := 103, data := { id := 3 }, ctxIndex := 2 } ]

/-- Host region holding those three elements, with fresh ids from 200/10
for newly created elements/instances. -/
def hostStart : RState :=
  { dom := [101, 102, 103], nextElem := 200, nextIid := 10,
    removedLog := [], cleanupLog := [], createdCount := 0 }

end LoopModel

/-! ## Theorems -/

namespace ReactiveCore

theorem updSig_sig_self (σ : Sys) (s : Nat) (f : SignalSt → SignalSt) :
    (updSig σ s f).signals s = f (σ.signals s) := by
  simp [updSig]

theorem updSig_sig_other (σ : Sys) (s s' : Nat) (f : SignalSt → SignalSt)
    (h : s' ≠ s) : (updSig σ s f).signals s' = σ.signals s' := by
  simp [updSig, h]

theorem updEff_eff_self (σ : Sys) (e : Nat) (f : EffectSt → EffectSt) :
    (updEff σ e f).effects e = f (σ.effects e) := by
  simp [updEff]

theorem updEff_eff_other (σ : Sys) (e e' : Nat) (f : EffectSt → EffectSt)
    (h : e' ≠ e) : (updEff σ e f).effects e' = σ.effects e' := by
  simp [updEff, h]

theorem onNotify_signals (σ : Sys) (e : Nat) :
    (Effect.onNotify σ e).signals = σ.signals := by
  simp only [Effect.onNotify, BatchScheduler.schedule]
  split <;> (try split) <;> (try split) <;> simp [updEff]

theorem onNotify_current (σ : Sys) (e : Nat) :
    (Effect.onNotify σ e).current = σ.current := by
  simp only [Effect.onNotify, BatchScheduler.schedule]
  split <;> (try split) <;> (try split) <;> simp [updEff]

theorem onNotify_isFlushing (σ : Sys) (e : Nat) :
    (Effect.onNotify σ e).isFlushing = σ.isFlushing := by
  simp only [Effect.onNotify, BatchScheduler.schedule]
  split <;> (try split) <;> (try split) <;> simp [updEff]

theorem onNotify_effects_other (σ : Sys) (e e' : Nat) (h : e' ≠ e) :
    (Effect.onNotify σ e).effects e' = σ.effects e' := by
  simp only [Effect.onNotify, BatchScheduler.schedule]
  split <;> (try split) <;> (try split) <;> simp [updEff, h]

theorem onNotify_pending_mono (σ : Sys) (e e' : Nat)
    (h : e' ∈ σ.pendingEffects) :
    e' ∈ (Effect.onNotify σ e).pendingEffects := by
  simp only [Effect.onNotify, BatchScheduler.schedule]
  split <;> (try split) <;> (try split) <;> simp_all [updEff]

theorem onNotify_pending_src (σ : Sys) (e e' : Nat)
    (h : e' ∈ (Effect.onNotify σ e).pendingEffects) :
    e' ∈ σ.pendingEffects ∨ e' = e := by
  simp only [Effect.onNotify, BatchScheduler.schedule] at h
  split at h <;> (try split at h) <;> (try split at h) <;>
    simp_all [updEff]

theorem onNotify_inactive (σ : Sys) (e : Nat)
    (h : (σ.effects e).active = false) : Effect.onNotify σ e = σ := by
  simp [Effect.onNotify, h]

theorem onNotify_scheduled (σ : Sys) (e : Nat)
    (h : (σ.effects e).scheduled = true) : Effect.onNotify σ e = σ := by
  simp [Effect.onNotify, h]

theorem notifyAll_signals (σ : Sys) (l : List (Nat × Nat)) :
    (Signal.notifyAll σ l).signals = σ.signals := by
  induction l generalizing σ with
  | nil => rfl
  | cons p t ih =>
      simp only [Signal.notifyAll, List.foldl_cons] at *
      rw [ih, onNotify_signals]

theorem notifyAll_current (σ : Sys) (l : List (Nat × Nat)) :
    (Signal.notifyAll σ l).current = σ.current := by
  induction l generalizing σ with
  | nil => rfl
  | cons p t ih =>
      simp only [Signal.notifyAll, List.foldl_cons] at *
      rw [ih, onNotify_current]

theorem notifyAll_isFlushing (σ : Sys) (l : List (Nat × Nat)) :
    (Signal.notifyAll σ l).isFlushing = σ.isFlushing := by
  induction l generalizing σ with
  | nil => rfl
  | cons p t ih =>
      simp only [Signal.notifyAll, List.foldl_cons] at *
      rw [ih, onNotify_isFlushing]

theorem notifyAll_pending_mono (σ : Sys) (l : List (Nat × Nat)) (e : Nat)
    (h : e ∈ σ.pendingEffects) :
    e ∈ (Signal.notifyAll σ l).pendingEffects := by
  induction l generalizing σ with
  | nil => exact h
  | cons p t ih =>
      simp only [Signal.notifyAll, List.foldl_cons] at *
      exact ih _ (onNotify_pending_mono _ _ _ h)

theorem notifyAll_pending_src (σ : Sys) (l : List (Nat × Nat)) (e : Nat)
    (h : e ∈ (Signal.notifyAll σ l).pendingEffects) :
    e ∈ σ.pendingEffects ∨ ∃ t, (t, e) ∈ l := by
  induction l generalizing σ with
  | nil => exact Or.inl h
  | cons p t ih =>
      simp only [Signal.notifyAll, List.foldl_cons] at h
      rcases ih _ h with h' | ⟨t', ht'⟩
      · rcases onNotify_pending_src σ p.2 e h' with h'' | rfl
        · exact Or.inl h''
        · exact Or.inr ⟨p.1, by simp⟩
      · exact Or.inr ⟨t', List.mem_cons_of_mem _ ht'⟩

theorem foldUnsub_effects (L : List (Nat × Nat)) (σ : Sys) :
    (L.foldl unsubscribeOne σ).effects = σ.effects := by
  induction L generalizing σ with
  | nil => rfl
  | cons p t ih => rw [List.foldl_cons, ih]; rfl

theorem foldUnsub_flags (L : List (Nat × Nat)) (σ : Sys) :
    (L.foldl unsubscribeOne σ).current = σ.current ∧
    (L.foldl unsubscribeOne σ).trackStack = σ.trackStack ∧
    (L.foldl unsubscribeOne σ).pendingEffects = σ.pendingEffects ∧
    (L.foldl unsubscribeOne σ).isScheduled = σ.isScheduled ∧
    (L.foldl unsubscribeOne σ).isFlushing = σ.isFlushing ∧
    (L.foldl unsubscribeOne σ).nextSub = σ.nextSub := by
  induction L generalizing σ with
  | nil => exact ⟨rfl, rfl, rfl, rfl, rfl, rfl⟩
  | cons p t ih =>
      rw [List.foldl_cons]
      exact ih _

theorem foldUnsub_val (L : List (Nat × Nat)) (σ : Sys) (s : Nat) :
    ((L.foldl unsubscribeOne σ).signals s).val = (σ.signals s).val := by
  induction L generalizing σ with
  | nil => rfl
  | cons p t ih =>
      rw [List.foldl_cons, ih]
      by_cases h : s = p.1
      · subst h; simp [unsubscribeOne, updSig]
      · simp [unsubscribeOne, updSig_sig_other _ _ _ _ h]

theorem foldUnsub_subset (L : List (Nat × Nat)) (σ : Sys) (s : Nat)
    (q : Nat × Nat) (h : q ∈ ((L.foldl unsubscribeOne σ).signals s).subs) :
    q ∈ (σ.signals s).subs := by
  induction L generalizing σ with
  | nil => exact h
  | cons p t ih =>
      rw [List.foldl_cons] at h
      have h' := ih _ h
      by_cases hs : s = p.1
      · subst hs
        rw [unsubscribeOne, updSig_sig_self] at h'
        exact List.mem_of_mem_filter h'
      · rwa [unsubscribeOne, updSig_sig_other _ _ _ _ hs] at h'

theorem foldUnsub_removes (L : List (Nat × Nat)) (σ : Sys) (s t : Nat)
    (hin : (s, t) ∈ L) (q : Nat × Nat)
    (h : q ∈ ((L.foldl unsubscribeOne σ).signals s).subs) : q.1 ≠ t := by
  induction L generalizing σ with
  | nil => cases hin
  | cons p rest ih =>
      rw [List.foldl_cons] at h
      rcases List.mem_cons.mp hin with heq | htail
      · -- the head entry is exactly (s, t): its filter pass removed token t,
        -- and the remaining passes only remove more
        have h' := foldUnsub_subset rest _ s q h
        rw [← heq] at h'
        rw [unsubscribeOne, updSig_sig_self] at h'
        have := List.of_mem_filter h'
        simpa [heq] using this
      · exact ih _ htail h

theorem cleanup_effects_self (σ : Sys) (eid : Nat) :
    ((Effect.cleanup σ eid).effects eid) =
      { σ.effects eid with cleanups := [] } := by
  rw [Effect.cleanup, updEff_eff_self, foldUnsub_effects]

theorem cleanup_effects_other (σ : Sys) (eid e : Nat) (h : e ≠ eid) :
    ((Effect.cleanup σ eid).effects e) = σ.effects e := by
  rw [Effect.cleanup, updEff_eff_other _ _ _ _ h, foldUnsub_effects]

theorem cleanup_flags (σ : Sys) (eid : Nat) :
    (Effect.cleanup σ eid).current = σ.current ∧
    (Effect.cleanup σ eid).trackStack = σ.trackStack ∧
    (Effect.cleanup σ eid).pendingEffects = σ.pendingEffects ∧
    (Effect.cleanup σ eid).isScheduled = σ.isScheduled ∧
    (Effect.cleanup σ eid).isFlushing = σ.isFlushing ∧
    (Effect.cleanup σ eid).nextSub = σ.nextSub := by
  rw [Effect.cleanup]
  have := foldUnsub_flags (σ.effects eid).cleanups σ
  simpa [updEff] using this

theorem cleanup_val (σ : Sys) (eid s : Nat) :
    ((Effect.cleanup σ eid).signals s).val = (σ.signals s).val := by
  rw [Effect.cleanup]
  have := foldUnsub_val (σ.effects eid).cleanups σ s
  simpa [updEff] using this

theorem cleanup_subs_subset (σ : Sys) (eid s : Nat) (q : Nat × Nat)
    (h : q ∈ ((Effect.cleanup σ eid).signals s).subs) :
    q ∈ (σ.signals s).subs := by
  rw [Effect.cleanup] at h
  simp only [updEff] at h
  exact foldUnsub_subset _ _ _ _ h

theorem cleanup_removes_all (σ : Sys) (eid : Nat)
    (hlink : CleanupCovers σ eid) (s t : Nat) :
    (t, eid) ∉ ((Effect.cleanup σ eid).signals s).subs := by
  intro h
  rw [Effect.cleanup] at h
  simp only [updEff] at h
  have hmem := foldUnsub_subset _ _ _ _ h
  have hcl := hlink s t hmem
  exact foldUnsub_removes _ _ s t hcl _ h rfl

theorem ROFrame.refl (eid : Nat) (σ : Sys) : ROFrame eid σ σ :=
  ⟨rfl, rfl, rfl, rfl, rfl, fun _ => rfl, fun _ _ => rfl, rfl, rfl, rfl, rfl,
   fun _ _ h => h, fun _ _ h => Or.inl h⟩

theorem ROFrame.trans {eid : Nat} {σ₁ σ₂ σ₃ : Sys}
    (a : ROFrame eid σ₁ σ₂) (b : ROFrame eid σ₂ σ₃) : ROFrame eid σ₁ σ₃ := by
  refine ⟨b.cur.trans a.cur, b.stk.trans a.stk, b.pend.trans a.pend,
    b.isSch.trans a.isSch, b.isFl.trans a.isFl,
    fun x => (b.vals x).trans (a.vals x),
    fun e h => (b.effOther e h).trans (a.effOther e h),
    ?_, ?_, ?_, ?_, ?_, ?_⟩
  · rw [b.act, a.act]
  · rw [b.sch, a.sch]
  · rw [b.rc, a.rc]
  · rw [b.bdy, a.bdy]
  · exact fun x q h => b.subsMono x q (a.subsMono x q h)
  · intro x q h
    rcases b.subsNew x q h with h' | h'
    · exact a.subsNew x q h'
    · exact Or.inr h'

theorem updEff_signals (σ : Sys) (e : Nat) (f : EffectSt → EffectSt) :
    (updEff σ e f).signals = σ.signals := rfl

theorem track_mem_id (σ : Sys) (eid s : Nat)
    (hmem : s ∈ (σ.effects eid).dependencies) : Effect.track σ eid s = σ := by
  simp [Effect.track, hmem]

theorem track_new_signals_self (σ : Sys) (eid s : Nat)
    (hmem : s ∉ (σ.effects eid).dependencies) :
    (Effect.track σ eid s).signals s =
      { σ.signals s with subs := (σ.signals s).subs ++ [(σ.nextSub, eid)] } := by
  simp [Effect.track, hmem, updSig, updEff]

theorem track_new_signals_other (σ : Sys) (eid s x : Nat)
    (hmem : s ∉ (σ.effects eid).dependencies) (hx : x ≠ s) :
    (Effect.track σ eid s).signals x = σ.signals x := by
  simp [Effect.track, hmem, updSig, updEff, hx]

theorem track_new_eff_self (σ : Sys) (eid s : Nat)
    (hmem : s ∉ (σ.effects eid).dependencies) :
    (Effect.track σ eid s).effects eid =
      { σ.effects eid with
          dependencies := (σ.effects eid).dependencies ++ [s],
          cleanups := (σ.effects eid).cleanups ++ [(s, σ.nextSub)] } := by
  simp [Effect.track, hmem, updSig, updEff]

theorem track_eff_other (σ : Sys) (eid s e : Nat) (hne : e ≠ eid) :
    (Effect.track σ eid s).effects e = σ.effects e := by
  by_cases hmem : s ∈ (σ.effects eid).dependencies
  · rw [track_mem_id _ _ _ hmem]
  · simp [Effect.track, hmem, updSig, updEff, hne]

theorem track_flags (σ : Sys) (eid s : Nat) :
    (Effect.track σ eid s).current = σ.current ∧
    (Effect.track σ eid s).trackStack = σ.trackStack ∧
    (Effect.track σ eid s).pendingEffects = σ.pendingEffects ∧
    (Effect.track σ eid s).isScheduled = σ.isScheduled ∧
    (Effect.track σ eid s).isFlushing = σ.isFlushing := by
  by_cases hmem : s ∈ (σ.effects eid).dependencies
  · rw [track_mem_id _ _ _ hmem]; exact ⟨rfl, rfl, rfl, rfl, rfl⟩
  · simp [Effect.track, hmem, updSig, updEff]

theorem track_rof (σ : Sys) (eid s : Nat) :
    ROFrame eid σ (Effect.track σ eid s) := by
  by_cases hmem : s ∈ (σ.effects eid).dependencies
  · rw [track_mem_id _ _ _ hmem]
    exact ROFrame.refl eid σ
  · obtain ⟨h1, h2, h3, h4, h5⟩ := track_flags σ eid s
    refine ⟨h1, h2, h3, h4, h5, ?_, ?_, ?_, ?_, ?_, ?_, ?_, ?_⟩
    · intro x
      by_cases hx : x = s
      · subst hx; rw [track_new_signals_self _ _ _ hmem]
      · rw [track_new_signals_other _ _ _ _ hmem hx]
    · exact fun e h => track_eff_other σ eid s e h
    · rw [track_new_eff_self _ _ _ hmem]
    · rw [track_new_eff_self _ _ _ hmem]
    · rw [track_new_eff_self _ _ _ hmem]
    · rw [track_new_eff_self _ _ _ hmem]
    · intro x q hq
      by_cases hx : x = s
      · subst hx
        rw [track_new_signals_self _ _ _ hmem]
        exact List.mem_append_left _ hq
      · rwa [track_new_signals_other _ _ _ _ hmem hx]
    · intro x q hq
      by_cases hx : x = s
      · subst hx
        rw [track_new_signals_self _ _ _ hmem] at hq
        rcases List.mem_append.mp hq with h | h
        · exact Or.inl h
        · simp only [List.mem_singleton] at h
          subst h; exact Or.inr rfl
      · rw [track_new_signals_other _ _ _ _ hmem hx] at hq
        exact Or.inl hq

/-- The state after a tracked `Signal` read. -/
theorem readValue_rof (σ : Sys) (eid s : Nat) (hcur : σ.current = some eid) :
    ROFrame eid σ (Signal.readValue σ s).1 := by
  simp only [Signal.readValue, hcur]
  refine (track_rof σ eid s).trans ?_
  refine ⟨rfl, rfl, rfl, rfl, rfl, fun _ => rfl, ?_, ?_, ?_, ?_, ?_,
    fun _ _ h => h, fun _ _ h => Or.inl h⟩
  · exact fun e h => updEff_eff_other _ _ _ _ h
  · rw [updEff_eff_self]
  · rw [updEff_eff_self]
  · rw [updEff_eff_self]
  · rw [updEff_eff_self]

theorem readValue_inv (σ : Sys) (eid s : Nat) (hcur : σ.current = some eid)
    (hA : InvA σ eid) (hB : InvB σ eid) :
    InvA (Signal.readValue σ s).1 eid ∧ InvB (Signal.readValue σ s).1 eid := by
  simp only [Signal.readValue, hcur]
  by_cases hmem : s ∈ (σ.effects eid).dependencies
  · rw [track_mem_id _ _ _ hmem]
    constructor
    · intro x
      rw [updEff_signals, updEff_eff_self]
      show (∃ t, (t, eid) ∈ (σ.signals x).subs) ↔
        x ∈ (σ.effects eid).readLog ++ [s]
      rw [List.mem_append]
      constructor
      · intro hx; exact Or.inl ((hA x).mp hx)
      · rintro (hx | hx)
        · exact (hA x).mpr hx
        · simp only [List.mem_singleton] at hx
          subst hx
          exact (hA x).mpr ((hB x).mp hmem)
    · intro x
      rw [updEff_eff_self]
      show x ∈ (σ.effects eid).dependencies ↔
        x ∈ (σ.effects eid).readLog ++ [s]
      rw [List.mem_append]
      constructor
      · intro hx; exact Or.inl ((hB x).mp hx)
      · rintro (hx | hx)
        · exact (hB x).mpr hx
        · simp only [List.mem_singleton] at hx
          subst hx; exact hmem
  · constructor
    · intro x
      rw [updEff_signals, updEff_eff_self]
      show (∃ t, (t, eid) ∈ ((Effect.track σ eid s).signals x).subs) ↔
        x ∈ ((Effect.track σ eid s).effects eid).readLog ++ [s]
      rw [track_new_eff_self _ _ _ hmem]
      by_cases hx : x = s
      · subst hx
        rw [track_new_signals_self _ _ _ hmem]
        simp
      · rw [track_new_signals_other _ _ _ _ hmem hx]
        show (∃ t, (t, eid) ∈ (σ.signals x).subs) ↔
          x ∈ (σ.effects eid).readLog ++ [s]
        rw [List.mem_append]
        have := hA x
        simp_all
    · intro x
      rw [updEff_eff_self, track_new_eff_self _ _ _ hmem]
      show x ∈ (σ.effects eid).dependencies ++ [s] ↔
        x ∈ (σ.effects eid).readLog ++ [s]
      rw [List.mem_append, List.mem_append]
      have := hB x
      simp_all

/-- Executing a read-only body under the tracker preserves the frame. -/
theorem execBody_rof (eid : Nat) :
    ∀ b : Body, b.ReadOnly → ∀ σ : Sys, σ.current = some eid →
      ROFrame eid σ (Effect.execBody σ b) := by
  intro b
  induction b with
  | done => intro _ σ _; exact ROFrame.refl eid σ
  | read s k ih =>
      intro hro σ hcur
      simp only [Effect.execBody]
      have h₁ := readValue_rof σ eid s hcur
      have hcur' : (Signal.readValue σ s).1.current = some eid := by
        rw [h₁.cur, hcur]
      exact h₁.trans (ih _ (hro _) _ hcur')
  | write s v rest _ =>
      intro hro _ _
      exact absurd hro (by simp [Body.ReadOnly])

/-- Executing a read-only body under the tracker preserves the
subscription/dependency/read-log invariants. -/
theorem execBody_inv (eid : Nat) :
    ∀ b : Body, b.ReadOnly → ∀ σ : Sys, σ.current = some eid →
      InvA σ eid → InvB σ eid →
      InvA (Effect.execBody σ b) eid ∧ InvB (Effect.execBody σ b) eid := by
  intro b
  induction b with
  | done => intro _ σ _ hA hB; exact ⟨hA, hB⟩
  | read s k ih =>
      intro hro σ hcur hA hB
      simp only [Effect.execBody]
      have h₁ := readValue_inv σ eid s hcur hA hB
      have hcur' : (Signal.readValue σ s).1.current = some eid := by
        rw [(readValue_rof σ eid s hcur).cur, hcur]
      exact ih _ (hro _) _ hcur' h₁.1 h₁.2
  | write s v rest _ =>
      intro hro _ _ _ _
      exact absurd hro (by simp [Body.ReadOnly])

theorem tracker_track_eq (σ : Sys) (eid : Nat) (b : Body) :
    EffectTracker.track σ eid b =
      { Effect.execBody
          { σ with trackStack := σ.trackStack ++ [σ.current],
                   current := some eid } b with
        current := σ.current,
        trackStack :=
          (Effect.execBody
            { σ with trackStack := σ.trackStack ++ [σ.current],
                     current := some eid } b).trackStack.dropLast } := rfl

theorem run_active_eq (σ : Sys) (eid : Nat)
    (h : (σ.effects eid).active = true) :
    Effect.run σ eid =
      EffectTracker.track
        (updEff
          (Effect.cleanup
            (updEff σ eid fun e =>
              { e with scheduled := false, readLog := [],
                       runCount := e.runCount + 1 }) eid)
          eid fun e => { e with dependencies := [] })
        eid
        ((updEff
          (Effect.cleanup
            (updEff σ eid fun e =>
              { e with scheduled := false, readLog := [],
                       runCount := e.runCount + 1 }) eid)
          eid fun e => { e with dependencies := [] }).effects eid).body := by
  simp [Effect.run, h]

/-- Specification of `Effect.run` on an active effect with a read-only
body, outside any enclosing tracked computation: it first discards all
edges and the dependency set, then re-executes the body under the
tracker, leaving (InvA) a subscription on exactly the signals read and
(InvB) a dependency set equal to the signals read.  Scheduler state,
other effects, and signal values are untouched. -/
theorem run_spec (σ₀ : Sys) (eid : Nat)
    (hlink : CleanupCovers σ₀ eid)
    (hcur : σ₀.current = none)
    (hact : (σ₀.effects eid).active = true)
    (hro : ((σ₀.effects eid).body).ReadOnly) :
    InvA (Effect.run σ₀ eid) eid ∧ InvB (Effect.run σ₀ eid) eid ∧
    (Effect.run σ₀ eid).current = none ∧
    (Effect.run σ₀ eid).pendingEffects = σ₀.pendingEffects ∧
    (Effect.run σ₀ eid).isFlushing = σ₀.isFlushing ∧
    ((Effect.run σ₀ eid).effects eid).scheduled = false ∧
    ((Effect.run σ₀ eid).effects eid).active = true ∧
    ((Effect.run σ₀ eid).effects eid).runCount
      = (σ₀.effects eid).runCount + 1 ∧
    ((Effect.run σ₀ eid).effects eid).body = (σ₀.effects eid).body ∧
    (∀ e, e ≠ eid → (Effect.run σ₀ eid).effects e = σ₀.effects e) ∧
    (∀ x, ((Effect.run σ₀ eid).signals x).val = (σ₀.signals x).val) := by
  rw [run_active_eq σ₀ eid hact]
  set σp := updEff σ₀ eid fun e =>
    { e with scheduled := false, readLog := [], runCount := e.runCount + 1 }
    with hσp
  set σc := Effect.cleanup σp eid with hσc
  set σd := updEff σc eid fun e => { e with dependencies := [] } with hσd
  -- bookkeeping facts about the pre-execution state
  have hpeff : σp.effects eid =
      { σ₀.effects eid with
          scheduled := false
          readLog := []
          runCount := (σ₀.effects eid).runCount + 1 } := by
    rw [hσp, updEff_eff_self]
  have hceff : σc.effects eid =
      { σ₀.effects eid with
          scheduled := false
          readLog := []
          runCount := (σ₀.effects eid).runCount + 1
          cleanups := [] } := by
    rw [hσc, cleanup_effects_self, hpeff]
  have hdeff : σd.effects eid =
      { σ₀.effects eid with
          scheduled := false
          readLog := []
          runCount := (σ₀.effects eid).runCount + 1
          cleanups := []
          dependencies := [] } := by
    rw [hσd, updEff_eff_self, hceff]
  have hplink : CleanupCovers σp eid := by
    intro s t hmem
    rw [hpeff]
    exact hlink s t hmem
  have hnosub : ∀ s t, (t, eid) ∉ (σd.signals s).subs := by
    intro s t
    rw [hσd, updEff_signals]
    exact cleanup_removes_all σp eid hplink s t
  have hdcur : σd.current = σ₀.current := by
    rw [hσd]
    show σc.current = σ₀.current
    rw [hσc, (cleanup_flags σp eid).1, hσp]
    exact rfl
  have hdpend : σd.pendingEffects = σ₀.pendingEffects := by
    rw [hσd]
    show σc.pendingEffects = σ₀.pendingEffects
    rw [hσc, (cleanup_flags σp eid).2.2.1, hσp]
    exact rfl
  have hdfl : σd.isFlushing = σ₀.isFlushing := by
    rw [hσd]
    show σc.isFlushing = σ₀.isFlushing
    rw [hσc, (cleanup_flags σp eid).2.2.2.2.1, hσp]
    exact rfl
  have hdval : ∀ x, (σd.signals x).val = (σ₀.signals x).val := by
    intro x
    rw [hσd]
    show (σc.signals x).val = (σ₀.signals x).val
    rw [hσc, cleanup_val, hσp]
    exact rfl
  have hdoth : ∀ e, e ≠ eid → σd.effects e = σ₀.effects e := by
    intro e he
    rw [hσd, updEff_eff_other _ _ _ _ he, hσc, cleanup_effects_other _ _ _ he,
      hσp, updEff_eff_other _ _ _ _ he]
  -- the tracked execution
  rw [tracker_track_eq]
  set σt : Sys :=
    { σd with trackStack := σd.trackStack ++ [σd.current],
              current := some eid } with hσt
  set B := (σd.effects eid).body with hB
  have hBro : B.ReadOnly := by
    rw [hB, hdeff]
    exact hro
  have htcur : σt.current = some eid := rfl
  have hfr : ROFrame eid σt (Effect.execBody σt B) :=
    execBody_rof eid B hBro σt htcur
  have hInvA : InvA σt eid := by
    intro x
    constructor
    · rintro ⟨t, ht⟩
      exact absurd ht (hnosub x t)
    · intro hx
      have : (σt.effects eid).readLog = [] := by
        show (σd.effects eid).readLog = []
        rw [hdeff]
      rw [this] at hx
      cases hx
  have hInvB : InvB σt eid := by
    intro x
    have h1 : (σt.effects eid).dependencies = [] := by
      show (σd.effects eid).dependencies = []
      rw [hdeff]
    have h2 : (σt.effects eid).readLog = [] := by
      show (σd.effects eid).readLog = []
      rw [hdeff]
    rw [h1, h2]
  have hinv := execBody_inv eid B hBro σt htcur hInvA hInvB
  set σe := Effect.execBody σt B with hσe
  refine ⟨?_, ?_, ?_, ?_, ?_, ?_, ?_, ?_, ?_, ?_, ?_⟩
  · intro x
    exact hinv.1 x
  · intro x
    exact hinv.2 x
  · show σd.current = none
    rw [hdcur, hcur]
  · show σe.pendingEffects = σ₀.pendingEffects
    rw [hfr.pend]
    show σd.pendingEffects = σ₀.pendingEffects
    exact hdpend
  · show σe.isFlushing = σ₀.isFlushing
    rw [hfr.isFl]
    show σd.isFlushing = σ₀.isFlushing
    exact hdfl
  · show (σe.effects eid).scheduled = false
    rw [hfr.sch]
    show (σd.effects eid).scheduled = false
    rw [hdeff]
  · show (σe.effects eid).active = true
    rw [hfr.act]
    show (σd.effects eid).active = true
    rw [hdeff]
    exact hact
  · show (σe.effects eid).runCount = (σ₀.effects eid).runCount + 1
    rw [hfr.rc]
    show (σd.effects eid).runCount = (σ₀.effects eid).runCount + 1
    rw [hdeff]
  · show (σe.effects eid).body = (σ₀.effects eid).body
    rw [hfr.bdy]
    show (σd.effects eid).body = (σ₀.effects eid).body
    rw [hdeff]
  · intro e he
    show σe.effects e = σ₀.effects e
    rw [hfr.effOther e he]
    show σd.effects e = σ₀.effects e
    exact hdoth e he
  · intro x
    show (σe.signals x).val = (σ₀.signals x).val
    rw [hfr.vals x]
    show (σd.signals x).val = (σ₀.signals x).val
    exact hdval x

theorem updSig_effects (σ : Sys) (s : Nat) (f : SignalSt → SignalSt) :
    (updSig σ s f).effects = σ.effects := rfl

theorem updSig_pending (σ : Sys) (s : Nat) (f : SignalSt → SignalSt) :
    (updSig σ s f).pendingEffects = σ.pendingEffects := rfl

theorem updSig_val_subs (σ : Sys) (s x : Nat) (v : Int) :
    ((updSig σ s fun g => { g with val := v }).signals x).subs =
      (σ.signals x).subs := by
  by_cases hx : x = s
  · subst hx; rw [updSig_sig_self]
  · rw [updSig_sig_other _ _ _ _ hx]

theorem onNotify_self_pending (σ : Sys) (eid : Nat)
    (hact : (σ.effects eid).active = true)
    (hsch : (σ.effects eid).scheduled = false) :
    eid ∈ (Effect.onNotify σ eid).pendingEffects := by
  simp only [Effect.onNotify, hact, hsch, BatchScheduler.schedule]
  split <;> (try split) <;> (try split) <;> simp_all [updEff]

theorem notifyAll_pending_tgt (eid : Nat) :
    ∀ (l : List (Nat × Nat)) (σ : Sys),
      (σ.effects eid).active = true → (σ.effects eid).scheduled = false →
      (∃ t, (t, eid) ∈ l) →
      eid ∈ (Signal.notifyAll σ l).pendingEffects := by
  intro l
  induction l with
  | nil => rintro σ _ _ ⟨t, ht⟩; cases ht
  | cons p rest ih =>
      rintro σ hact hsch ⟨t, ht⟩
      simp only [Signal.notifyAll, List.foldl_cons]
      by_cases hp : p.2 = eid
      · subst hp
        exact notifyAll_pending_mono _ _ _ (onNotify_self_pending σ p.2 hact hsch)
      · have hfr := onNotify_effects_other σ p.2 eid (fun h => hp h.symm)
        have htail : (t, eid) ∈ rest := by
          rcases List.mem_cons.mp ht with h | h
          · exact absurd (congrArg Prod.snd h.symm) hp
          · exact h
        exact ih _ (hfr ▸ hact) (hfr ▸ hsch) ⟨t, htail⟩

/-- C1.  On each run, a computation discards all its dependency edges and
rebuilds them from the signals the body reads this time; consequently,
after the run, a value-changing write to a cell schedules the computation
into the pending set iff that cell was read during that run. -/
theorem effect_rerun_iff_read (σ₀ : Sys) (eid : Nat)
    (hlink : CleanupCovers σ₀ eid) (hcur : σ₀.current = none)
    (hact : (σ₀.effects eid).active = true)
    (hro : ((σ₀.effects eid).body).ReadOnly)
    (hpend : eid ∉ σ₀.pendingEffects) :
    (∀ x, (∃ t, (t, eid) ∈ ((Effect.run σ₀ eid).signals x).subs) ↔
        x ∈ ((Effect.run σ₀ eid).effects eid).readLog) ∧
    (∀ X v, v ≠ ((Effect.run σ₀ eid).signals X).val →
        (eid ∈ (Signal.writeValue (Effect.run σ₀ eid) X v).pendingEffects ↔
         X ∈ ((Effect.run σ₀ eid).effects eid).readLog)) := by
  obtain ⟨hA, hB, hc, hp, hf, hsch, hac, hrc, hbd, hoth, hval⟩ :=
    run_spec σ₀ eid hlink hcur hact hro
  refine ⟨hA, ?_⟩
  intro X v hne
  have hne' : ¬ ((Effect.run σ₀ eid).signals X).val = v := fun h => hne h.symm
  rw [Signal.writeValue, if_neg hne']
  constructor
  · intro hmem
    rcases notifyAll_pending_src _ _ _ hmem with h' | ⟨t, ht⟩
    · rw [updSig_pending, hp] at h'
      exact absurd h' hpend
    · rw [updSig_val_subs] at ht
      exact (hA X).mp ⟨t, ht⟩
  · intro hX
    obtain ⟨t, ht⟩ := (hA X).mpr hX
    refine notifyAll_pending_tgt eid _ _ ?_ ?_ ⟨t, ?_⟩
    · rw [updSig_effects]; exact hac
    · rw [updSig_effects]; exact hsch
    · rw [updSig_val_subs]; exact ht

theorem condBody_ro : condBody.ReadOnly := by
  intro v
  by_cases h : v = 0 <;> simp only [h, if_pos, if_neg, ne_eq] <;>
    first
      | exact trivial
      | (split <;> first | exact trivial | exact fun _ => trivial)

/-- C1 witness: in the concrete conditional-body system, after the first
run the body has read cell 0 but not cell 1; a changed-value write to
cell 0 schedules the computation, and the iff also rules cell 1 out. -/
theorem effect_rerun_iff_read_witness :
    (5 : Int) ≠ ((Effect.run (mkSys condBody) 0).signals 0).val ∧
    (0 ∈ (Signal.writeValue (Effect.run (mkSys condBody) 0) 0 5).pendingEffects ↔
      0 ∈ ((Effect.run (mkSys condBody) 0).effects 0).readLog) ∧
    0 ∈ ((Effect.run (mkSys condBody) 0).effects 0).readLog ∧
    1 ∉ ((Effect.run (mkSys condBody) 0).effects 0).readLog := by
  have hlink : CleanupCovers (mkSys condBody) 0 := by
    intro s t h
    simp [mkSys] at h
  have h := effect_rerun_iff_read (mkSys condBody) 0 hlink rfl rfl
    condBody_ro (by simp [mkSys])
  refine ⟨by decide, h.2 0 5 (by decide), by decide, by decide⟩

theorem onNotify_noop (σ : Sys) (e : Nat)
    (h : (σ.effects e).active = false ∨ (σ.effects e).scheduled = true) :
    Effect.onNotify σ e = σ := by
  rcases h with h | h
  · exact onNotify_inactive σ e h
  · exact onNotify_scheduled σ e h

theorem notifyAll_noop (σ : Sys) (l : List (Nat × Nat))
    (h : ∀ e, (σ.effects e).active = false ∨ (σ.effects e).scheduled = true) :
    Signal.notifyAll σ l = σ := by
  induction l with
  | nil => rfl
  | cons p rest ih =>
      simp only [Signal.notifyAll, List.foldl_cons] at *
      rw [onNotify_noop σ p.2 (h p.2), ih]

theorem writeValue_preserves_P (σ : Sys) (eid : Nat) (B : Body) (r : Nat)
    (s : Nat) (v : Int) (hP : PState σ eid B r) :
    PState (Signal.writeValue σ s v) eid B r := by
  obtain ⟨hpend, hsched, hact, hoth, hfl, hbody, hrc⟩ := hP
  rw [Signal.writeValue]
  split
  · exact ⟨hpend, hsched, hact, hoth, hfl, hbody, hrc⟩
  · rw [notifyAll_noop]
    · exact ⟨hpend, hsched, hact, hoth, hfl, hbody, hrc⟩
    · intro e
      by_cases he : e = eid
      · subst he; exact Or.inr hsched
      · exact Or.inl (hoth e he)

theorem applyWrites_preserves_P (eid : Nat) (B : Body) (r : Nat) :
    ∀ (ws : List (Nat × Int)) (σ : Sys), PState σ eid B r →
      PState (applyWrites σ ws) eid B r := by
  intro ws
  induction ws with
  | nil => intro σ h; exact h
  | cons w rest ih =>
      intro σ h
      simp only [applyWrites, List.foldl_cons]
      exact ih _ (writeValue_preserves_P σ eid B r w.1 w.2 h)

theorem onNotify_fire (σ : Sys) (eid : Nat)
    (hact : (σ.effects eid).active = true)
    (hsch : (σ.effects eid).scheduled = false)
    (hpend : σ.pendingEffects = []) :
    (Effect.onNotify σ eid).pendingEffects = [eid] ∧
    ((Effect.onNotify σ eid).effects eid).scheduled = true ∧
    ((Effect.onNotify σ eid).effects eid).active = true ∧
    (∀ i, i ≠ eid → (Effect.onNotify σ eid).effects i = σ.effects i) ∧
    (Effect.onNotify σ eid).isFlushing = σ.isFlushing ∧
    ((Effect.onNotify σ eid).effects eid).body = (σ.effects eid).body ∧
    ((Effect.onNotify σ eid).effects eid).runCount = (σ.effects eid).runCount := by
  simp only [Effect.onNotify, hact, hsch, BatchScheduler.schedule]
  refine ⟨?_, ?_, ?_, ?_, ?_, ?_, ?_⟩ <;>
    (try intro i hi) <;>
    split <;> (try split) <;> (try split) <;>
    simp_all [updEff, hpend]

theorem notifyAll_establish (eid : Nat) :
    ∀ (l : List (Nat × Nat)) (σ : Sys),
      (σ.effects eid).active = true → (σ.effects eid).scheduled = false →
      (∀ e, e ≠ eid → (σ.effects e).active = false) →
      σ.pendingEffects = [] → σ.isFlushing = false →
      (∃ t, (t, eid) ∈ l) →
      PState (Signal.notifyAll σ l) eid (σ.effects eid).body
        (σ.effects eid).runCount := by
  intro l
  induction l with
  | nil => rintro σ _ _ _ _ _ ⟨t, ht⟩; cases ht
  | cons p rest ih =>
      rintro σ hact hsch hoth hpend hfl ⟨t, ht⟩
      simp only [Signal.notifyAll, List.foldl_cons]
      by_cases hp : p.2 = eid
      · subst hp
        obtain ⟨f1, f2, f3, f4, f5, f6, f7⟩ := onNotify_fire σ p.2 hact hsch hpend
        have hP : PState (Effect.onNotify σ p.2) p.2 (σ.effects p.2).body
            (σ.effects p.2).runCount := by
          refine ⟨f1, f2, f3, ?_, by rw [f5]; exact hfl, f6, f7⟩
          intro e he
          rw [f4 e he]; exact hoth e he
        have hnoop : Signal.notifyAll (Effect.onNotify σ p.2) rest
            = Effect.onNotify σ p.2 := by
          apply notifyAll_noop
          intro e
          by_cases he : e = p.2
          · subst he; exact Or.inr f2
          · exact Or.inl (by rw [f4 e he]; exact hoth e he)
        show PState (Signal.notifyAll (Effect.onNotify σ p.2) rest) p.2 _ _
        rw [hnoop]
        exact hP
      · rw [onNotify_inactive σ p.2 (hoth p.2 hp)]
        have htail : (t, eid) ∈ rest := by
          rcases List.mem_cons.mp ht with h | h
          · exact absurd (congrArg Prod.snd h.symm) hp
          · exact h
        exact ih _ hact hsch hoth hpend hfl ⟨t, htail⟩

/-- Light specification of `Effect.run`: the run counter increments and
the scheduler state is untouched (read-only body). -/
theorem run_light (σ : Sys) (eid : Nat)
    (hact : (σ.effects eid).active = true)
    (hro : ((σ.effects eid).body).ReadOnly) :
    ((Effect.run σ eid).effects eid).runCount = (σ.effects eid).runCount + 1 ∧
    (Effect.run σ eid).pendingEffects = σ.pendingEffects ∧
    (Effect.run σ eid).isFlushing = σ.isFlushing ∧
    (Effect.run σ eid).isScheduled = σ.isScheduled := by
  rw [run_active_eq σ eid hact]
  set σp := updEff σ eid fun e =>
    { e with scheduled := false, readLog := [], runCount := e.runCount + 1 }
    with hσp
  set σc := Effect.cleanup σp eid with hσc
  set σd := updEff σc eid fun e => { e with dependencies := [] } with hσd
  have hdeff : σd.effects eid =
      { σ.effects eid with
          scheduled := false
          readLog := []
          runCount := (σ.effects eid).runCount + 1
          cleanups := []
          dependencies := [] } := by
    rw [hσd, updEff_eff_self, hσc, cleanup_effects_self, hσp, updEff_eff_self]
  have hBro : ((σd.effects eid).body).ReadOnly := by rw [hdeff]; exact hro
  rw [tracker_track_eq]
  set σt : Sys :=
    { σd with trackStack := σd.trackStack ++ [σd.current],
              current := some eid } with hσt
  have hfr : ROFrame eid σt (Effect.execBody σt ((σd.effects eid).body)) :=
    execBody_rof eid _ hBro σt rfl
  refine ⟨?_, ?_, ?_, ?_⟩
  · show ((Effect.execBody σt _).effects eid).runCount = _
    rw [hfr.rc]
    show (σd.effects eid).runCount = _
    rw [hdeff]
  · show (Effect.execBody σt _).pendingEffects = _
    rw [hfr.pend]
    show σd.pendingEffects = σ.pendingEffects
    rw [hσd]
    show σc.pendingEffects = σ.pendingEffects
    rw [hσc, (cleanup_flags σp eid).2.2.1, hσp]
    exact rfl
  · show (Effect.execBody σt _).isFlushing = _
    rw [hfr.isFl]
    show σd.isFlushing = σ.isFlushing
    rw [hσd]
    show σc.isFlushing = σ.isFlushing
    rw [hσc, (cleanup_flags σp eid).2.2.2.2.1, hσp]
    exact rfl
  · show (Effect.execBody σt _).isScheduled = _
    rw [hfr.isSch]
    show σd.isScheduled = σ.isScheduled
    rw [hσd]
    show σc.isScheduled = σ.isScheduled
    rw [hσc, (cleanup_flags σp eid).2.2.2.1, hσp]
    exact rfl

theorem flush_from_P (σ : Sys) (eid : Nat) (B : Body) (r : Nat)
    (hP : PState σ eid B r) (hro : B.ReadOnly) :
    ((BatchScheduler.flush σ).effects eid).runCount = r + 1 := by
  obtain ⟨hpend, hsched, hact, hoth, hfl, hbody, hrc⟩ := hP
  rw [BatchScheduler.flush, if_neg (by rw [hfl]; exact Bool.false_ne_true)]
  simp only [hpend, List.foldl_cons, List.foldl_nil]
  set σ₂ : Sys := { σ with isFlushing := true, isScheduled := false,
                           pendingEffects := [] } with hσ₂
  have hact₂ : (σ₂.effects eid).active = true := hact
  have hro₂ : ((σ₂.effects eid).body).ReadOnly := by
    show ((σ.effects eid).body).ReadOnly
    rw [hbody]; exact hro
  have hr := run_light σ₂ eid hact₂ hro₂
  show ((if _ then _ else _ : Sys).effects eid).runCount = r + 1
  rw [runIfActive, if_pos hact₂]
  have hpend₃ : (Effect.run σ₂ eid).pendingEffects = [] := hr.2.1
  rw [if_neg]
  · show ((Effect.run σ₂ eid).effects eid).runCount = r + 1
    rw [hr.1]
    show (σ.effects eid).runCount + 1 = r + 1
    rw [hrc]
  · rw [hpend₃]
    simp

/-- C2.  A computation that reads several distinct cells, all written
(with changed values) before any flush, is re-run exactly once at the
next flush. -/
theorem batch_coalescing (σ₀ : Sys) (eid : Nat) (ws : List (Nat × Int))
    (hlink : CleanupCovers σ₀ eid) (hcur : σ₀.current = none)
    (hact : (σ₀.effects eid).active = true)
    (hro : ((σ₀.effects eid).body).ReadOnly)
    (hoth : ∀ e, e ≠ eid → (σ₀.effects e).active = false)
    (hpend : σ₀.pendingEffects = [])
    (hfl : σ₀.isFlushing = false)
    (hne : ws ≠ [])
    (hdist : (ws.map Prod.fst).Nodup)
    (hdeps : ∀ p ∈ ws, p.1 ∈ ((Effect.run σ₀ eid).effects eid).dependencies)
    (hchg : ∀ p ∈ ws, p.2 ≠ ((Effect.run σ₀ eid).signals p.1).val) :
    ((BatchScheduler.flush (applyWrites (Effect.run σ₀ eid) ws)).effects
        eid).runCount
      = ((Effect.run σ₀ eid).effects eid).runCount + 1 := by
  obtain ⟨hA, hB, hc, hp, hf, hsch, hac, hrc, hbd, hothf, hval⟩ :=
    run_spec σ₀ eid hlink hcur hact hro
  set σ₁ := Effect.run σ₀ eid with hσ₁
  obtain ⟨w, rest, rfl⟩ : ∃ w rest, ws = w :: rest := by
    cases ws with
    | nil => exact absurd rfl hne
    | cons w rest => exact ⟨w, rest, rfl⟩
  have hsub : ∃ t, (t, eid) ∈ (σ₁.signals w.1).subs := by
    apply (hA w.1).mpr
    exact (hB w.1).mp (hdeps w (List.mem_cons_self w rest))
  -- the first write establishes the stable pending state
  have hwne : ¬ (σ₁.signals w.1).val = w.2 :=
    fun h => hchg w (List.mem_cons_self w rest) h.symm
  have hP₁ : PState (Signal.writeValue σ₁ w.1 w.2) eid
      (σ₁.effects eid).body (σ₁.effects eid).runCount := by
    rw [Signal.writeValue, if_neg hwne]
    have hsub' : ∃ t, (t, eid) ∈
        ((updSig σ₁ w.1 fun g => { g with val := w.2 }).signals w.1).subs := by
      rw [updSig_val_subs]; exact hsub
    have h := notifyAll_establish eid _
      (updSig σ₁ w.1 fun g => { g with val := w.2 })
      hac hsch (fun e he => by rw [updSig_effects]; exact (hothf e he) ▸ hoth e he)
      (by rw [updSig_pending, hp, hpend])
      (by show σ₁.isFlushing = false; rw [hf, hfl]) hsub'
    exact h
  have hPn := applyWrites_preserves_P eid (σ₁.effects eid).body
    (σ₁.effects eid).runCount rest _ hP₁
  have hBro : ((σ₁.effects eid).body).ReadOnly := by rw [hbd]; exact hro
  have := flush_from_P _ eid (σ₁.effects eid).body (σ₁.effects eid).runCount
    hPn hBro
  simpa [applyWrites] using this

/-- C2 witness: the two-cell sum computation, with both cells written
before a flush, runs exactly once at that flush (run count goes from 1
after the initial run to 2). -/
theorem batch_coalescing_witness :
    [((0 : Nat), (5 : Int)), (1, 7)] ≠ ([] : List (Nat × Int)) ∧
    (([((0 : Nat), (5 : Int)), (1, 7)].map Prod.fst).Nodup) ∧
    (∀ p ∈ [((0 : Nat), (5 : Int)), (1, 7)],
      p.1 ∈ ((Effect.run (mkSys sumBody) 0).effects 0).dependencies) ∧
    (∀ p ∈ [((0 : Nat), (5 : Int)), (1, 7)],
      p.2 ≠ ((Effect.run (mkSys sumBody) 0).signals p.1).val) ∧
    ((BatchScheduler.flush
        (applyWrites (Effect.run (mkSys sumBody) 0)
          [(0, 5), (1, 7)])).effects 0).runCount
      = ((Effect.run (mkSys sumBody) 0).effects 0).runCount + 1 := by
  have hlink : CleanupCovers (mkSys sumBody) 0 := by
    intro s t h
    simp [mkSys] at h
  have hro : sumBody.ReadOnly := fun _ => fun _ => trivial
  refine ⟨by decide, by decide, by decide, by decide, ?_⟩
  exact batch_coalescing (mkSys sumBody) 0 [(0, 5), (1, 7)] hlink rfl rfl hro
    (fun e he => by simp [mkSys, inertEffect, he])
    rfl rfl (by decide) (by decide) (by decide) (by decide)

theorem stop_pending (σ : Sys) (eid : Nat) :
    (Effect.stop σ eid).pendingEffects = σ.pendingEffects := by
  rw [Effect.stop]
  show (Effect.cleanup (updEff σ eid _) eid).pendingEffects = _
  rw [(cleanup_flags _ eid).2.2.1]
  exact rfl

theorem stop_current (σ : Sys) (eid : Nat) :
    (Effect.stop σ eid).current = σ.current := by
  rw [Effect.stop]
  show (Effect.cleanup (updEff σ eid _) eid).current = _
  rw [(cleanup_flags _ eid).1]
  exact rfl

theorem stop_isFlushing (σ : Sys) (eid : Nat) :
    (Effect.stop σ eid).isFlushing = σ.isFlushing := by
  rw [Effect.stop]
  show (Effect.cleanup (updEff σ eid _) eid).isFlushing = _
  rw [(cleanup_flags _ eid).2.2.2.2.1]
  exact rfl

theorem stop_eff_self (σ : Sys) (eid : Nat) :
    (Effect.stop σ eid).effects eid =
      { σ.effects eid with
          active := false
          cleanups := []
          dependencies := [] } := by
  rw [Effect.stop, updEff_eff_self, cleanup_effects_self, updEff_eff_self]

theorem stop_establishes (σ : Sys) (eid : Nat)
    (hlink : CleanupCovers σ eid) (hcur : σ.current = none) :
    StoppedInv (Effect.stop σ eid) eid := by
  refine ⟨?_, ?_, ?_, ?_, ?_⟩
  · rw [stop_eff_self]
  · rw [stop_eff_self]
  · rw [stop_eff_self]
  · intro s t
    rw [Effect.stop]
    show (t, eid) ∉ ((Effect.cleanup (updEff σ eid _) eid).signals s).subs
    apply cleanup_removes_all
    intro s' t' h
    rw [updEff_eff_self]
    exact hlink s' t' h
  · rw [stop_current, hcur]

theorem notifyAll_stopped (σ : Sys) (l : List (Nat × Nat)) (eid : Nat)
    (hin : (σ.effects eid).active = false) :
    (Signal.notifyAll σ l).effects eid = σ.effects eid ∧
    (Signal.notifyAll σ l).signals = σ.signals ∧
    (Signal.notifyAll σ l).current = σ.current ∧
    (eid ∉ σ.pendingEffects → eid ∉ (Signal.notifyAll σ l).pendingEffects) := by
  induction l generalizing σ with
  | nil => exact ⟨rfl, rfl, rfl, fun h => h⟩
  | cons p rest ih =>
      simp only [Signal.notifyAll, List.foldl_cons] at *
      have heff : (Effect.onNotify σ p.2).effects eid = σ.effects eid := by
        by_cases hp : p.2 = eid
        · subst hp; rw [onNotify_inactive σ p.2 hin]
        · exact onNotify_effects_other σ p.2 eid (fun h => hp h.symm)
      have hin' : ((Effect.onNotify σ p.2).effects eid).active = false := by
        rw [heff]; exact hin
      obtain ⟨a, b, c, d⟩ := ih (Effect.onNotify σ p.2) hin'
      refine ⟨a.trans heff, b.trans (onNotify_signals σ p.2),
        c.trans (onNotify_current σ p.2), ?_⟩
      intro hmem
      apply d
      intro hmem'
      rcases onNotify_pending_src σ p.2 eid hmem' with h | h
      · exact hmem h
      · rw [← h, onNotify_inactive σ eid hin] at hmem'
        exact hmem hmem'

theorem execBody_stopped (eid : Nat) :
    ∀ (b : Body) (σ : Sys) (e : Nat), σ.current = some e → e ≠ eid →
      (σ.effects eid).active = false →
      (∀ s t, (t, eid) ∉ (σ.signals s).subs) →
      (Effect.execBody σ b).effects eid = σ.effects eid ∧
      (∀ s t, (t, eid) ∉ ((Effect.execBody σ b).signals s).subs) ∧
      (Effect.execBody σ b).current = σ.current ∧
      (eid ∉ σ.pendingEffects → eid ∉ (Effect.execBody σ b).pendingEffects) := by
  intro b
  induction b with
  | done => intro σ e _ _ _ hns; exact ⟨rfl, hns, rfl, fun h => h⟩
  | read s k ih =>
      intro σ e hcur hne hin hns
      simp only [Effect.execBody, Signal.readValue, hcur]
      set σ₁ := updEff (Effect.track σ e s) e
        (fun es => { es with readLog := es.readLog ++ [s] }) with hσ₁
      have heff : σ₁.effects eid = σ.effects eid := by
        rw [hσ₁, updEff_eff_other _ _ _ _ (fun h => hne h.symm),
          track_eff_other _ _ _ _ (fun h => hne h.symm)]
      have hsubs : ∀ x t, (t, eid) ∉ (σ₁.signals x).subs := by
        intro x t hmem
        rw [hσ₁, updEff_signals] at hmem
        by_cases hmemdep : s ∈ (σ.effects e).dependencies
        · rw [track_mem_id _ _ _ hmemdep] at hmem
          exact hns x t hmem
        · by_cases hx : x = s
          · subst hx
            rw [track_new_signals_self _ _ _ hmemdep] at hmem
            rcases List.mem_append.mp hmem with h | h
            · exact hns x t h
            · simp only [List.mem_singleton, Prod.mk.injEq] at h
              exact hne h.2.symm
          · rw [track_new_signals_other _ _ _ _ hmemdep hx] at hmem
            exact hns x t hmem
      have hcur₁ : σ₁.current = σ.current := by
        rw [hσ₁]
        show (Effect.track σ e s).current = σ.current
        exact (track_flags σ e s).1
      have hpend₁ : σ₁.pendingEffects = σ.pendingEffects := by
        rw [hσ₁]
        show (Effect.track σ e s).pendingEffects = σ.pendingEffects
        exact (track_flags σ e s).2.2.1
      have hin₁ : (σ₁.effects eid).active = false := by rw [heff]; exact hin
      have hcur₁' : σ₁.current = some e := by rw [hcur₁, hcur]
      obtain ⟨a, b', c, d⟩ := ih _ _ e hcur₁' hne hin₁ hsubs
      exact ⟨a.trans heff, b', (c.trans hcur₁).trans hcur,
        fun h => d (by rw [hpend₁]; exact h)⟩
  | write s v rest ih =>
      intro σ e hcur hne hin hns
      simp only [Effect.execBody]
      rw [Signal.writeValue]
      split
      · exact ih σ e hcur hne hin hns
      · set σ₁ := updSig σ s fun g => { g with val := v } with hσ₁
        have hin₁ : (σ₁.effects eid).active = false := hin
        obtain ⟨a, b', c, d⟩ :=
          notifyAll_stopped σ₁ ((σ₁.signals s).subs) eid hin₁
        set σ₂ := Signal.notifyAll σ₁ ((σ₁.signals s).subs) with hσ₂
        have heff₂ : σ₂.effects eid = σ.effects eid := a
        have hsubs₂ : ∀ x t, (t, eid) ∉ (σ₂.signals x).subs := by
          intro x t hmem
          rw [b'] at hmem
          rw [hσ₁, updSig_val_subs] at hmem
          exact hns x t hmem
        have hcur₂ : σ₂.current = some e := by
          rw [c]
          show σ.current = some e
          exact hcur
        have hin₂ : (σ₂.effects eid).active = false := by
          rw [heff₂]; exact hin
        obtain ⟨a', b'', c', d'⟩ := ih _ e hcur₂ hne hin₂ hsubs₂
        refine ⟨a'.trans heff₂, b'', c'.trans c, ?_⟩
        intro h
        exact d' (d h)

theorem run_stopped (σ : Sys) (e eid : Nat) (h : StoppedInv σ eid) :
    StoppedInv (Effect.run σ e) eid ∧
    (Effect.run σ e).effects eid = σ.effects eid ∧
    (eid ∉ σ.pendingEffects → eid ∉ (Effect.run σ e).pendingEffects) := by
  obtain ⟨hin, hcl, hdep, hns, hcur⟩ := h
  by_cases he : e = eid
  · subst he
    rw [Effect.run, if_pos (by rw [hin]; exact Bool.false_ne_true)]
    exact ⟨⟨hin, hcl, hdep, hns, hcur⟩, rfl, fun h => h⟩
  · by_cases hact : (σ.effects e).active = true
    · rw [run_active_eq σ e hact]
      set σp := updEff σ e fun es =>
        { es with scheduled := false, readLog := [],
                  runCount := es.runCount + 1 } with hσp
      set σc := Effect.cleanup σp e with hσc
      set σd := updEff σc e fun es => { es with dependencies := [] } with hσd
      have hne : e ≠ eid := he
      have heffp : σp.effects eid = σ.effects eid := by
        rw [hσp, updEff_eff_other _ _ _ _ (fun x => hne x.symm)]
      have heffc : σc.effects eid = σ.effects eid := by
        rw [hσc, cleanup_effects_other _ _ _ (fun x => hne x.symm), heffp]
      have heffd : σd.effects eid = σ.effects eid := by
        rw [hσd, updEff_eff_other _ _ _ _ (fun x => hne x.symm), heffc]
      have hnsd : ∀ s t, (t, eid) ∉ (σd.signals s).subs := by
        intro s t hmem
        rw [hσd, updEff_signals] at hmem
        have := cleanup_subs_subset σp e s _ hmem
        rw [hσp] at this
        exact hns s t this
      have hcurd : σd.current = σ.current := by
        rw [hσd]
        show σc.current = σ.current
        rw [hσc, (cleanup_flags σp e).1, hσp]
        exact rfl
      have hpendd : σd.pendingEffects = σ.pendingEffects := by
        rw [hσd]
        show σc.pendingEffects = σ.pendingEffects
        rw [hσc, (cleanup_flags σp e).2.2.1, hσp]
        exact rfl
      rw [tracker_track_eq]
      set σt : Sys :=
        { σd with trackStack := σd.trackStack ++ [σd.current],
                  current := some e } with hσt
      have hint : (σt.effects eid).active = false := by
        show (σd.effects eid).active = false
        rw [heffd]; exact hin
      have hnst : ∀ s t, (t, eid) ∉ (σt.signals s).subs := hnsd
      obtain ⟨a, b, c, d⟩ := execBody_stopped eid ((σd.effects e).body) σt e
        rfl hne hint hnst
      set σe := Effect.execBody σt ((σd.effects e).body) with hσe
      have heffe : σe.effects eid = σ.effects eid := a.trans heffd
      refine ⟨⟨?_, ?_, ?_, ?_, ?_⟩, ?_, ?_⟩
      · show (σe.effects eid).active = false
        rw [heffe]; exact hin
      · show (σe.effects eid).cleanups = []
        rw [heffe]; exact hcl
      · show (σe.effects eid).dependencies = []
        rw [heffe]; exact hdep
      · intro s t
        show (t, eid) ∉ (σe.signals s).subs
        exact b s t
      · show σd.current = none
        rw [hcurd, hcur]
      · show σe.effects eid = σ.effects eid
        exact heffe
      · intro hp
        show eid ∉ σe.pendingEffects
        apply d
        show eid ∉ σd.pendingEffects
        rw [hpendd]
        exact hp
    · rw [Effect.run, if_pos (by simp_all)]
      exact ⟨⟨hin, hcl, hdep, hns, hcur⟩, rfl, fun h => h⟩

theorem effectSt_eta (x : EffectSt) (h1 : x.active = false)
    (h2 : x.cleanups = []) (h3 : x.dependencies = []) :
    { x with active := false, cleanups := [], dependencies := [] } = x := by
  cases x
  simp_all

theorem writeValue_stopped (σ : Sys) (s : Nat) (v : Int) (eid : Nat)
    (h : StoppedInv σ eid) :
    StoppedInv (Signal.writeValue σ s v) eid ∧
    (Signal.writeValue σ s v).effects eid = σ.effects eid ∧
    (eid ∉ σ.pendingEffects →
      eid ∉ (Signal.writeValue σ s v).pendingEffects) := by
  obtain ⟨hin, hcl, hdep, hns, hcur⟩ := h
  rw [Signal.writeValue]
  split
  · exact ⟨⟨hin, hcl, hdep, hns, hcur⟩, rfl, fun h => h⟩
  · set σ₁ := updSig σ s fun g => { g with val := v } with hσ₁
    obtain ⟨a, b, c, d⟩ := notifyAll_stopped σ₁ ((σ₁.signals s).subs) eid hin
    refine ⟨⟨?_, ?_, ?_, ?_, ?_⟩, ?_, ?_⟩
    · rw [a]; exact hin
    · rw [a]; exact hcl
    · rw [a]; exact hdep
    · intro x t hmem
      rw [b, hσ₁, updSig_val_subs] at hmem
      exact hns x t hmem
    · rw [c]
      exact hcur
    · exact a
    · exact d

theorem schedule_stopped (σ : Sys) (e eid : Nat) (h : StoppedInv σ eid) :
    StoppedInv (BatchScheduler.schedule σ e) eid ∧
    (BatchScheduler.schedule σ e).effects eid = σ.effects eid := by
  obtain ⟨hin, hcl, hdep, hns, hcur⟩ := h
  rw [BatchScheduler.schedule]
  constructor
  · refine ⟨?_, ?_, ?_, ?_, ?_⟩ <;> split <;> (try split) <;> simp_all
  · split <;> (try split) <;> simp_all

theorem stop_stopped (σ : Sys) (e eid : Nat) (h : StoppedInv σ eid) :
    StoppedInv (Effect.stop σ e) eid ∧
    (Effect.stop σ e).effects eid = σ.effects eid := by
  obtain ⟨hin, hcl, hdep, hns, hcur⟩ := h
  have hsubs : ∀ x t, (t, eid) ∉ ((Effect.stop σ e).signals x).subs := by
    intro x t hmem
    rw [Effect.stop] at hmem
    show False
    have : (t, eid) ∈ ((Effect.cleanup (updEff σ e _) e).signals x).subs := hmem
    have := cleanup_subs_subset _ e x _ this
    rw [updEff_signals] at this
    exact hns x t this
  have hcur' : (Effect.stop σ e).current = none := by
    rw [stop_current, hcur]
  by_cases he : e = eid
  · subst he
    have heq : (Effect.stop σ e).effects e = σ.effects e := by
      rw [stop_eff_self]
      exact effectSt_eta _ hin hcl hdep
    refine ⟨⟨?_, ?_, ?_, hsubs, hcur'⟩, heq⟩
    · rw [heq]; exact hin
    · rw [heq]; exact hcl
    · rw [heq]; exact hdep
  · have heq : (Effect.stop σ e).effects eid = σ.effects eid := by
      rw [Effect.stop, updEff_eff_other _ _ _ _ (fun x => he x.symm),
        cleanup_effects_other _ _ _ (fun x => he x.symm),
        updEff_eff_other _ _ _ _ (fun x => he x.symm)]
    refine ⟨⟨?_, ?_, ?_, hsubs, hcur'⟩, heq⟩
    · rw [heq]; exact hin
    · rw [heq]; exact hcl
    · rw [heq]; exact hdep

theorem runIfActive_stopped (σ : Sys) (e eid : Nat) (h : StoppedInv σ eid) :
    StoppedInv (runIfActive σ e) eid ∧
    (runIfActive σ e).effects eid = σ.effects eid ∧
    (eid ∉ σ.pendingEffects → eid ∉ (runIfActive σ e).pendingEffects) := by
  rw [runIfActive]
  split
  · exact run_stopped σ e eid h
  · exact ⟨h, rfl, fun h => h⟩

theorem foldRun_stopped (eid : Nat) :
    ∀ (snap : List Nat) (σ : Sys), StoppedInv σ eid →
      StoppedInv (snap.foldl runIfActive σ) eid ∧
      (snap.foldl runIfActive σ).effects eid = σ.effects eid ∧
      (eid ∉ σ.pendingEffects →
        eid ∉ (snap.foldl runIfActive σ).pendingEffects) := by
  intro snap
  induction snap with
  | nil => intro σ h; exact ⟨h, rfl, fun h => h⟩
  | cons e rest ih =>
      intro σ h
      simp only [List.foldl_cons]
      obtain ⟨h₁, h₂, h₃⟩ := runIfActive_stopped σ e eid h
      obtain ⟨a, b, c⟩ := ih _ h₁
      exact ⟨a, b.trans h₂, fun hm => c (h₃ hm)⟩

theorem flush_stopped (σ : Sys) (eid : Nat) (h : StoppedInv σ eid) :
    StoppedInv (BatchScheduler.flush σ) eid ∧
    (BatchScheduler.flush σ).effects eid = σ.effects eid ∧
    (σ.isFlushing = false →
      eid ∉ (BatchScheduler.flush σ).pendingEffects) := by
  obtain ⟨hin, hcl, hdep, hns, hcur⟩ := h
  rw [BatchScheduler.flush]
  split
  · refine ⟨⟨hin, hcl, hdep, hns, hcur⟩, rfl, ?_⟩
    intro hfl
    rename_i hcond
    rw [hfl] at hcond
    exact absurd hcond Bool.false_ne_true
  · set σ₂ : Sys := { σ with isFlushing := true, isScheduled := false,
                             pendingEffects := [] } with hσ₂
    have h₂ : StoppedInv σ₂ eid := ⟨hin, hcl, hdep, hns, hcur⟩
    obtain ⟨a, b, c⟩ := foldRun_stopped eid σ.pendingEffects σ₂ h₂
    set σ₃ := σ.pendingEffects.foldl runIfActive σ₂ with hσ₃
    have hnp : eid ∉ σ₃.pendingEffects := c (List.not_mem_nil eid)
    obtain ⟨a1, a2, a3, a4, a5⟩ := a
    show StoppedInv
        (if ({ σ₃ with isFlushing := false } : Sys).pendingEffects.length > 0 ∧
            ¬ ({ σ₃ with isFlushing := false } : Sys).isScheduled then
          { ({ σ₃ with isFlushing := false } : Sys) with isScheduled := true }
         else { σ₃ with isFlushing := false }) eid ∧ _ ∧ _
    by_cases hc : ({ σ₃ with isFlushing := false } : Sys).pendingEffects.length
        > 0 ∧ ¬ ({ σ₃ with isFlushing := false } : Sys).isScheduled
    · rw [if_pos hc]
      exact ⟨⟨a1, a2, a3, a4, a5⟩, b, fun _ => hnp⟩
    · rw [if_neg hc]
      exact ⟨⟨a1, a2, a3, a4, a5⟩, b, fun _ => hnp⟩

theorem applyOp_stopped (σ : Sys) (o : Op) (eid : Nat) (h : StoppedInv σ eid) :
    StoppedInv (applyOp σ o) eid ∧ (applyOp σ o).effects eid = σ.effects eid := by
  cases o with
  | writeOp s v =>
      obtain ⟨a, b, _⟩ := writeValue_stopped σ s v eid h
      exact ⟨a, b⟩
  | flushOp =>
      obtain ⟨a, b, _⟩ := flush_stopped σ eid h
      exact ⟨a, b⟩
  | flushSyncOp =>
      obtain ⟨a, b, _⟩ := flush_stopped σ eid h
      exact ⟨a, b⟩
  | scheduleOp e => exact schedule_stopped σ e eid h
  | runOp e =>
      obtain ⟨a, b, _⟩ := run_stopped σ e eid h
      exact ⟨a, b⟩
  | stopOp e => exact stop_stopped σ e eid h

theorem applyOps_stopped (eid : Nat) :
    ∀ (ops : List Op) (σ : Sys), StoppedInv σ eid →
      StoppedInv (applyOps σ ops) eid ∧
      (applyOps σ ops).effects eid = σ.effects eid := by
  intro ops
  induction ops with
  | nil => intro σ h; exact ⟨h, rfl⟩
  | cons o rest ih =>
      intro σ h
      simp only [applyOps, List.foldl_cons] at *
      obtain ⟨h₁, h₂⟩ := applyOp_stopped σ o eid h
      obtain ⟨a, b⟩ := ih _ h₁
      exact ⟨a, b.trans h₂⟩

/-- C6.  After `stop()`, the computation's body is never invoked again by
any subsequent sequence of writes, flushes, schedules, runs or stops
(its run counter never moves and it never becomes active again); the
pending entry is not removed eagerly by `stop` itself, and the flush that
processes it skips it via the `active` flag and drops it from the
pending set. -/
theorem stop_semantics (σ : Sys) (eid : Nat)
    (hlink : CleanupCovers σ eid) (hcur : σ.current = none) :
    (Effect.stop σ eid).pendingEffects = σ.pendingEffects ∧
    (∀ ops : List Op,
      ((applyOps (Effect.stop σ eid) ops).effects eid).runCount
        = ((Effect.stop σ eid).effects eid).runCount ∧
      ((applyOps (Effect.stop σ eid) ops).effects eid).active = false) ∧
    (σ.isFlushing = false →
      eid ∉ (BatchScheduler.flush (Effect.stop σ eid)).pendingEffects) := by
  have hstop := stop_establishes σ eid hlink hcur
  refine ⟨stop_pending σ eid, ?_, ?_⟩
  · intro ops
    obtain ⟨a, b⟩ := applyOps_stopped eid ops _ hstop
    exact ⟨by rw [b], a.1⟩
  · intro hfl
    obtain ⟨_, _, c⟩ := flush_stopped _ eid hstop
    exact c (by rw [stop_isFlushing, hfl])

/-- C6 witness: in the concrete one-effect system where the computation
sits in the pending set, stopping it leaves the pending entry in place,
a subsequent write plus flush never re-runs it, and the flush drops the
pending entry without running the body. -/
theorem stop_semantics_witness :
    (Effect.stop stopSys 0).pendingEffects = [0] ∧
    ((applyOps (Effect.stop stopSys 0)
        [Op.writeOp 0 5, Op.flushOp, Op.writeOp 0 9, Op.flushOp]).effects
        0).runCount = ((Effect.stop stopSys 0).effects 0).runCount ∧
    0 ∉ (BatchScheduler.flush (Effect.stop stopSys 0)).pendingEffects := by
  have hlink : CleanupCovers stopSys 0 := by
    intro s t h
    by_cases hs : s = 0
    · subst hs
      simp only [stopSys, if_pos, List.mem_singleton] at h
      simp only [stopSys, if_pos]
      simp only [Prod.mk.injEq] at h
      simp [h.1]
    · simp [stopSys, hs] at h
  have h := stop_semantics stopSys 0 hlink rfl
  exact ⟨h.1, (h.2.1 [Op.writeOp 0 5, Op.flushOp, Op.writeOp 0 9,
    Op.flushOp]).1, h.2.2 rfl⟩

end ReactiveCore


namespace ComputedModel

/-- C4.  A dirty read does recompute synchronously and produce the fresh
value, but `_recompute` invokes the accessor *without* the derivation's
own dependency tracking: the dependency set stays as established at
construction ([0]), cell 1 — read only by the latest recompute — is never
tracked, so a later write to cell 1 does not invalidate the derivation
and the next read returns the stale cached value 5 although the accessor,
evaluated fresh, yields 7. -/
theorem recompute_does_not_retrack :
    (construct env0 condGetter).eff.dependencies = [0] ∧
    (construct env0 condGetter).cvalue = some 0 ∧
    (getValue (flushC (writeSig (construct env0 condGetter) 0 1))
        condGetter).2 = some 5 ∧
    ((getValue (flushC (writeSig (construct env0 condGetter) 0 1))
        condGetter).1).eff.dependencies = [0] ∧
    (getValue (flushC (writeSig
        ((getValue (flushC (writeSig (construct env0 condGetter) 0 1))
          condGetter).1) 1 7)) condGetter).2 = some 5 ∧
    (evalGetter ((getValue (flushC (writeSig
        ((getValue (flushC (writeSig (construct env0 condGetter) 0 1))
          condGetter).1) 1 7)) condGetter).1).sig condGetter).1 = 7 := by
  decide

/-- C9.  Whenever a recompute (or the construction-time effect body)
notifies, the `(newValue, oldValue)` pair handed to `_notify` has both
components equal to the new value: `this._value` is overwritten before
`_notify(newValue, this._value)` reads it. -/
theorem notify_oldValue_is_new (σ : CSys) (g : GBody) (p : Int × Option Int) :
    (p ∈ («_recompute» σ g).notifyLog → p ∉ σ.notifyLog → p.2 = some p.1) ∧
    (p ∈ (computedFn σ g).notifyLog → p ∉ σ.notifyLog → p.2 = some p.1) := by
  constructor <;>
  · intro hmem hold
    simp only [«_recompute», computedFn] at hmem
    by_cases hc : σ.cvalue ≠ some ((evalGetter σ.sig g).1)
    · rw [if_pos hc] at hmem
      rcases List.mem_append.mp hmem with h | h
      · exact absurd h hold
      · simp only [List.mem_singleton] at h
        subst h
        rfl
    · rw [if_neg hc] at hmem
      exact absurd hmem hold

/-- C9 witness: the concrete dirty computed with accessor returning 3
appends exactly the pair `(3, some 3)`. -/
theorem notify_oldValue_is_new_witness :
    ((3 : Int), some (3 : Int)) ∈
        («_recompute» csys0 (GBody.ret 3)).notifyLog ∧
    ((3 : Int), some (3 : Int)) ∉ csys0.notifyLog ∧
    (((3 : Int), some (3 : Int)).2 = some ((3 : Int), some (3 : Int)).1) := by
  refine ⟨by decide, by decide, ?_⟩
  exact (notify_oldValue_is_new csys0 (GBody.ret 3) (3, some 3)).1
    (by decide) (by decide)

end ComputedModel

namespace WrapperModel

/-- C3 counterexample: `wrap` is *not* idempotent.  Wrapping the wrapper
of a fresh raw object yields a new, distinct proxy (the cache maps raw →
proxy, so a proxy is not recognised); and wrapping the same raw array
twice yields two distinct proxies (the array path never consults the
cache). -/
theorem wrap_not_idempotent :
    (reactive (reactive ⟨[HKind.rawObj], [], []⟩ (JVal.obj 0)).1
        (reactive ⟨[HKind.rawObj], [], []⟩ (JVal.obj 0)).2).2
      ≠ (reactive ⟨[HKind.rawObj], [], []⟩ (JVal.obj 0)).2 ∧
    (reactive (reactive ⟨[HKind.rawArr], [], []⟩ (JVal.obj 0)).1
        (JVal.obj 0)).2
      ≠ (reactive ⟨[HKind.rawArr], [], []⟩ (JVal.obj 0)).2 := by
  decide

theorem wmGet_set_self (m : List (Nat × Nat)) (k v : Nat) :
    wmGet (wmSet m k v) k = some v := by
  induction m with
  | nil => simp [wmGet, wmSet]
  | cons p m ih =>
      by_cases hp : p.1 = k
      · simp [wmGet, wmSet, hp, List.any_cons]
      · by_cases hm : m.any (fun q => q.1 = k)
        · simp only [wmSet, List.any_cons, hp, decide_eq_true_eq, hm,
            Bool.false_or, if_pos] at ih ⊢
          simp only [wmGet, List.find?, hp, decide_eq_false hp] at ih ⊢
          simpa [wmGet, List.map_cons, List.find?, hp] using ih
        · simp only [wmSet, List.any_cons, hp, decide_eq_true_eq, hm,
            Bool.false_or] at ih ⊢
          simp only [decide_eq_false hp, Bool.false_eq_true, if_false] at ih ⊢
          simp [wmGet, List.find?, hp, decide_eq_false hp] at ih ⊢
          exact ih

theorem isArrayAt_after_objProxy (σ σ' : WState) (a t : Nat)
    (hheap : σ'.heap = σ.heap ++ [HKind.proxyObj t])
    (h : isArrayAt σ a = false) : isArrayAt σ' a = false := by
  rw [isArrayAt, hheap, List.getElem?_append]
  by_cases ha : a < σ.heap.length
  · rw [if_pos ha]
    rw [isArrayAt] at h
    exact h
  · rw [if_neg ha]
    by_cases he : a - σ.heap.length = 0
    · rw [he]
      rfl
    · rw [List.getElem?_eq_none
        (show ([HKind.proxyObj t] : List HKind).length ≤ a - σ.heap.length by
          simp only [List.length_singleton]
          omega)]

/-- C3 amended.  `wrap` returns primitives and `null` unchanged, and
wrapping the same raw non-array object twice returns the identical
wrapper without touching the caches; but `wrap` is not idempotent —
wrapping an already-wrapped object wraps the proxy again (a distinct
wrapper), and wrapping the same raw array twice returns two distinct
wrappers, because the array path allocates a fresh proxy on every call
without consulting the cache. -/
theorem wrap_amended (σ : WState) (a : Nat) (n : Int)
    (h : isArrayAt σ a = false) :
    reactive σ (JVal.prim n) = (σ, JVal.prim n) ∧
    reactive σ JVal.nullv = (σ, JVal.nullv) ∧
    reactive (reactive σ (JVal.obj a)).1 (JVal.obj a)
      = ((reactive σ (JVal.obj a)).1, (reactive σ (JVal.obj a)).2) ∧
    (reactive (reactive ⟨[HKind.rawObj], [], []⟩ (JVal.obj 0)).1
        (reactive ⟨[HKind.rawObj], [], []⟩ (JVal.obj 0)).2).2
      ≠ (reactive ⟨[HKind.rawObj], [], []⟩ (JVal.obj 0)).2 ∧
    (reactive (reactive ⟨[HKind.rawArr], [], []⟩ (JVal.obj 0)).1
        (JVal.obj 0)).2
      ≠ (reactive ⟨[HKind.rawArr], [], []⟩ (JVal.obj 0)).2 := by
  have hstep : ∀ (τ : WState), isArrayAt τ a = false →
      reactive τ (JVal.obj a) =
        (match wmGet τ.reactiveMap a with
         | some p => (τ, JVal.obj p)
         | none =>
             ({ heap := τ.heap ++ [HKind.proxyObj a],
                reactiveMap := wmSet τ.reactiveMap a τ.heap.length,
                rawMap := wmSet τ.rawMap τ.heap.length a },
              JVal.obj τ.heap.length)) := by
    intro τ hτ
    simp only [reactive]
    rw [if_neg (by rw [hτ]; exact Bool.false_ne_true)]
  refine ⟨rfl, rfl, ?_, by decide, by decide⟩
  cases hget : wmGet σ.reactiveMap a with
  | some p =>
      rw [hstep σ h, hget]
      show reactive σ (JVal.obj a) = (σ, JVal.obj p)
      rw [hstep σ h, hget]
  | none =>
      rw [hstep σ h, hget]
      have h' : isArrayAt
          ⟨σ.heap ++ [HKind.proxyObj a], wmSet σ.reactiveMap a σ.heap.length,
           wmSet σ.rawMap σ.heap.length a⟩ a = false :=
        isArrayAt_after_objProxy σ _ a a rfl h
      show reactive _ (JVal.obj a) = _
      rw [hstep _ h']
      rw [show wmGet (wmSet σ.reactiveMap a σ.heap.length) a
            = some σ.heap.length from wmGet_set_self _ _ _]

/-- C3 amended witness: a concrete raw object is wrapped twice to the
identical wrapper with unchanged caches. -/
theorem wrap_amended_witness :
    isArrayAt ⟨[HKind.rawObj], [], []⟩ 0 = false ∧
    reactive (reactive ⟨[HKind.rawObj], [], []⟩ (JVal.obj 0)).1 (JVal.obj 0)
      = ((reactive ⟨[HKind.rawObj], [], []⟩ (JVal.obj 0)).1,
         (reactive ⟨[HKind.rawObj], [], []⟩ (JVal.obj 0)).2) := by
  refine ⟨by decide, ?_⟩
  exact (wrap_amended ⟨[HKind.rawObj], [], []⟩ 0 0 (by decide)).2.2.1

end WrapperModel

namespace ArrayModel

theorem setLengthSig_version (σ : ArrSys) (v : Int) :
    (setLengthSig σ v).versionSig = σ.versionSig := by
  rw [setLengthSig]
  split <;> rfl

theorem setChangeSig_version (σ : ArrSys) (ev : ChangeEvent) :
    (setChangeSig σ ev).versionSig = σ.versionSig := by
  rw [setChangeSig]
  split <;> rfl

theorem setVersionSig_incr (σ : ArrSys) :
    (setVersionSig σ (σ.versionSig + 1)).versionSig = σ.versionSig + 1 := by
  rw [setVersionSig, if_neg (by omega)]

theorem callMethod_version (σ : ArrSys) (m : MutMethod) :
    (callMethod σ m).versionSig = σ.versionSig + 1 := by
  rw [callMethod]
  rw [setChangeSig_version]
  show (setVersionSig (setLengthSig { σ with
      target := applyRaw σ.target m } ((applyRaw σ.target m).length : Int))
      ((setLengthSig { σ with target := applyRaw σ.target m }
        ((applyRaw σ.target m).length : Int)).versionSig + 1)).versionSig
    = σ.versionSig + 1
  rw [setVersionSig_incr, setLengthSig_version]

/-- C7.  Every sequence of calls to the seven intercepted mutating
methods increments the version cell by exactly one per call — including
length-preserving calls such as `sort` — so the version strictly
increases by one per operation. -/
theorem version_monotonic (σ : ArrSys) (ms : List MutMethod) :
    ((ms.foldl callMethod σ).versionSig) = σ.versionSig + (ms.length : Int) := by
  induction ms generalizing σ with
  | nil => simp
  | cons m rest ih =>
      rw [List.foldl_cons, ih, callMethod_version]
      simp only [List.length_cons]
      push_cast
      ring

theorem listSet_same : ∀ (l : List Int) (i : Nat) (v : Int),
    l[i]? = some v → l.set i v = l := by
  intro l
  induction l with
  | nil => intro i v h; cases h
  | cons x xs ih =>
      intro i v h
      cases i with
      | zero =>
          simp only [List.getElem?_cons_zero, Option.some.injEq] at h
          rw [List.set]
          rw [h]
      | succ j =>
          simp only [List.getElem?_cons_succ] at h
          rw [List.set]
          rw [ih j v h]

/-- C10.  A plain index assignment of a value reference-equal to the
existing element still increments the version cell by one (the version
bump is unconditional) and performs the length-cell write (a no-op
notification, since the length is unchanged); only the structured
change-event write is guarded by `oldValue !== value`, so the change
event does not fire — but the version cell notifies its subscribers. -/
theorem same_value_index_write (σ : ArrSys) (i : Nat) (v : Int)
    (hv : σ.target[i]? = some v)
    (hlen : σ.lengthSig = (σ.target.length : Int)) :
    (setIndex σ i v).target = σ.target ∧
    (setIndex σ i v).versionSig = σ.versionSig + 1 ∧
    (setIndex σ i v).changeSig = σ.changeSig ∧
    (setIndex σ i v).lengthSig = σ.lengthSig ∧
    (setIndex σ i v).notifyLog = σ.notifyLog ++ [SigName.versionSig] := by
  have hset : σ.target.set i v = σ.target := listSet_same σ.target i v hv
  rw [setIndex]
  rw [if_neg (by rw [hv]; simp)]
  rw [hset]
  have hlen2 : setLengthSig { σ with target := σ.target }
      ((σ.target.length : Int)) = { σ with target := σ.target } := by
    rw [setLengthSig, if_pos]
    show σ.lengthSig = (σ.target.length : Int)
    exact hlen
  rw [hlen2]
  rw [setVersionSig, if_neg (by omega)]
  exact ⟨rfl, rfl, rfl, rfl, rfl⟩

/-- C10 witness: writing the existing head value back into a freshly
wrapped `[1,2,3]` bumps the version to 1, leaves the change event `none`,
and logs exactly one version notification. -/
theorem same_value_index_write_witness :
    (wrapArray [1, 2, 3]).target[0]? = some 1 ∧
    (wrapArray [1, 2, 3]).lengthSig = ((wrapArray [1, 2, 3]).target.length : Int) ∧
    (setIndex (wrapArray [1, 2, 3]) 0 1).versionSig
        = (wrapArray [1, 2, 3]).versionSig + 1 ∧
    (setIndex (wrapArray [1, 2, 3]) 0 1).changeSig
        = (wrapArray [1, 2, 3]).changeSig ∧
    (setIndex (wrapArray [1, 2, 3]) 0 1).notifyLog
        = (wrapArray [1, 2, 3]).notifyLog ++ [SigName.versionSig] := by
  have h := same_value_index_write (wrapArray [1, 2, 3]) 0 1
    (by decide) (by decide)
  exact ⟨by decide, by decide, h.2.1, h.2.2.1, h.2.2.2.2⟩

end ArrayModel

namespace LoopModel

/-- C5.  Reconciling previous keys `{1,2,3}` against new keys `{2,3,4}`
with key = `id` removes exactly the instance with key 1 (detaching its
element 101 and running its cleanup), reuses the instances for keys 2 and
3 unchanged (identical instance ids and rendered elements 102, 103),
constructs exactly one fresh instance (for key 4), and leaves the host
region as `[102, 103, 204-fresh]`. -/
theorem reconcile_keyed_minimal :
    (reconcile keyById hostStart prevInstances
        [{ id := 2 }, { id := 3 }, { id := 4 }]).1.removedLog = [101] ∧
    (reconcile keyById hostStart prevInstances
        [{ id := 2 }, { id := 3 }, { id := 4 }]).1.cleanupLog = [1] ∧
    (reconcile keyById hostStart prevInstances
        [{ id := 2 }, { id := 3 }, { id := 4 }]).1.createdCount = 1 ∧
    ((reconcile keyById hostStart prevInstances
        [{ id := 2 }, { id := 3 }, { id := 4 }]).2.map
      (fun i => (i.iid, i.element)))
      = [(2, 102), (3, 103), (10, 200)] ∧
    (reconcile keyById hostStart prevInstances
        [{ id := 2 }, { id := 3 }, { id := 4 }]).1.dom = [102, 103, 200] := by
  decide

/-- C8.  When the configured key expression throws,
`ExpressionEvaluator.evaluate` catches the exception internally and
returns `undefined`, so `_computeKey` yields `undefined` as the key — not
the positional index the spec (and the dead `catch` branch in
`_computeKey`) promises. -/
theorem throwing_key_yields_undefined :
    computeKey (some fun _ _ => Except.error ()) { id := 5 } 2 = KVal.undef ∧
    KVal.undef ≠ KVal.intv (2 : Int) := by
  exact ⟨rfl, by decide⟩

end LoopModel
